import Mathlib

/-!
# Verification of the BayesNetwork repository

Shallow embedding of `BayesNetwork/distributions.py` and
`BayesNetwork/bayesNetwork.py`.

Modelling conventions:
* Python floats are modelled by `ℚ`; every probability used in a theorem is a
  dyadic or decimal value that is exact in IEEE double as well, so the exact
  equality tests of the source (`sum(...) == 1`) behave identically.
* Python exceptions are modelled by `Except PyError`; the constructors follow
  Python's exception classes (`AssertionError`, `ValueError`, `KeyError`,
  `IndexError`, `TypeError`, `RuntimeError`).  The spec's taxonomy maps
  StructuralError/QueryError/ConfigurationError onto the `ValueError` /
  `AssertionError` values the code actually raises, and LookupError onto
  `KeyError`.
* Randomness (`np.random.choice`, `random.choice`) is modelled by an explicit
  stream of naturals (`Rng`); a draw takes the head of the stream and indexes
  the candidate list with it.  All theorems below depend only on which list the
  drawn value comes from and on the error behaviour, never on the weighting of
  the draw.
* Node objects alias each other in Python (parents/children dictionaries hold
  references).  Following the arena model, the network is a name-keyed
  association list `NetMap` and every dereference of a neighbour goes through
  the current map, which reproduces the live-reference semantics for
  network-registered nodes (whose names are unique).
-/

set_option autoImplicit false

/-- Python exception classes raised by the code under `src/`. -/
inductive PyError where
  | assertionError
  | valueError
  | keyError
  | indexError
  | typeError
  | runtimeError
  deriving DecidableEq, Repr

/-- The pseudo-random source, modelled as a stream of naturals. -/
abbrev Rng := List Nat

/-- Take the next random number (0 when the stream is exhausted). -/
def rngNext : Rng → Nat × Rng
  | [] => (0, [])
  | x :: xs => (x, xs)

/-- `DiscreteDistribution` state: the constructor dictionary plus the fields
set up by `preprocess` (`_values`, `_weights`, `_is_preprocessed`). -/
structure DiscreteDistribution where
  distribution : List (String × ℚ)
  vals : List String := []
  weights : List ℚ := []
  is_preprocessed : Bool := false
  deriving DecidableEq, Repr

/-- `DiscreteDistribution.__init__`: asserts that the probabilities sum to 1
(exact equality in the source; there is no non-negativity check and no
tolerance).  The `isinstance` checks are static facts of the typed model. -/
def DiscreteDistribution.init (distribution : List (String × ℚ)) :
    Except PyError DiscreteDistribution :=
  if (distribution.map Prod.snd).sum = 1 then
    Except.ok { distribution := distribution }
  else
    Except.error PyError.assertionError

/-- `DiscreteDistribution.preprocess`: snapshots keys and weights. -/
def DiscreteDistribution.preprocess (d : DiscreteDistribution) : DiscreteDistribution :=
  { d with
    vals := d.distribution.map Prod.fst
    weights := d.distribution.map Prod.snd
    is_preprocessed := true }

/-- `DiscreteDistribution.sample` (with `num_of_samples = 1`): asserts
preprocessing, then draws one value; the weighted `np.random.choice` draw is
modelled by indexing `_values` with the supplied random number. -/
def DiscreteDistribution.sample (d : DiscreteDistribution) (r : Nat) :
    Except PyError String :=
  if d.is_preprocessed = false then Except.error PyError.assertionError
  else if d.vals.isEmpty then Except.error PyError.valueError
  else Except.ok (d.vals.getD (r % d.vals.length) "")

/-- `DiscreteDistribution.is_value_possible`: asserts preprocessing, then a
membership test on `_values`. -/
def DiscreteDistribution.is_value_possible (d : DiscreteDistribution) (value : String) :
    Except PyError Bool :=
  if d.is_preprocessed = false then Except.error PyError.assertionError
  else Except.ok (d.vals.contains value)

/-- `DiscreteDistribution.get_random_value`: asserts `_values` is truthy
(non-`None` and non-empty), then a uniform `random.choice`. -/
def DiscreteDistribution.get_random_value (d : DiscreteDistribution) (r : Nat) :
    Except PyError String :=
  if d.vals.isEmpty then Except.error PyError.assertionError
  else Except.ok (d.vals.getD (r % d.vals.length) "")

/-- A row of a conditional table: the leading string cells
(parent values followed by the outcome label) and the trailing probability.
The Python row `[v1, ..., vk, outcome, p]` is `([v1, ..., vk, outcome], p)`. -/
abbrev CondRow := List String × ℚ

/-- `ConditionalDistribution` state.  `_values` starts as `None`
(`Option.none`), which matters for `is_value_possible` before preprocessing. -/
structure ConditionalDistribution where
  distribution : List CondRow
  dist_len : Nat
  num_of_dependencies : Nat
  conditional_distribution_lookup : List (List String × (List String × List ℚ)) := []
  vals : Option (List String) := none
  is_preprocessed : Bool := false
  deriving DecidableEq, Repr

/-- `ConditionalDistribution.__init__`: row shape checks are static facts of
the typed model; `num_of_dependencies = len(distribution[0]) - 2` (an
`IndexError` on an empty table; truncated subtraction — every table in the
development has rows with at least one parent column, where `Nat` and `int`
agree). -/
def ConditionalDistribution.init (distribution : List CondRow) :
    Except PyError ConditionalDistribution :=
  match distribution with
  | [] => Except.error PyError.indexError
  | row :: _ =>
      Except.ok
        { distribution := distribution
          dist_len := distribution.length
          num_of_dependencies := (row.1.length + 1) - 2 }

/-- The inner helper of `ConditionalDistribution.preprocess`: collect the
outcome (`x[-2]`, the last string cell) and weight (`x[-1]`) of every row whose
leading cells match `evidence`. -/
def get_possible_values_and_weight_for_evidence (distribution : List CondRow)
    (num : Nat) (evidence : List String) : List String × List ℚ :=
  let matching := distribution.filter (fun row => row.1.take num = evidence)
  (matching.map (fun row => row.1.getLastD ""), matching.map Prod.snd)

/-- The distinct parent-value tuples of the table
(`set(tuple(x[:num_of_dependencies]) for x in distribution)`). -/
def ConditionalDistribution.possible_evidences (d : ConditionalDistribution) :
    List (List String) :=
  (d.distribution.map (fun row => row.1.take d.num_of_dependencies)).dedup

/-- The lookup-building loop of `ConditionalDistribution.preprocess`: for each
possible parent-value tuple, build its group and assert that the group's
weights sum to 1 (exact equality in the source). -/
def build_lookup (distribution : List CondRow) (num : Nat) :
    List (List String) → Except PyError (List (List String × (List String × List ℚ)))
  | [] => Except.ok []
  | ev :: rest =>
      let g := get_possible_values_and_weight_for_evidence distribution num ev
      if g.2.sum = 1 then
        match build_lookup distribution num rest with
        | Except.ok tail => Except.ok ((ev, g) :: tail)
        | Except.error e => Except.error e
      else Except.error PyError.assertionError

/-- `ConditionalDistribution.preprocess`: computes `_values` (distinct
outcome labels) and the evidence-keyed lookup, asserting each group sums
to 1. -/
def ConditionalDistribution.preprocess (d : ConditionalDistribution) :
    Except PyError ConditionalDistribution :=
  match build_lookup d.distribution d.num_of_dependencies d.possible_evidences with
  | Except.error e => Except.error e
  | Except.ok lk =>
      Except.ok
        { d with
          vals := some ((d.distribution.map (fun row => row.1.getLastD "")).dedup)
          conditional_distribution_lookup := lk
          is_preprocessed := true }

/-- Dictionary access `conditional_distribution_lookup[evidence]`. -/
def lookup_find (lk : List (List String × (List String × List ℚ)))
    (evidence : List String) : Option (List String × List ℚ) :=
  (lk.find? (fun p => p.1 = evidence)).map Prod.snd

/-- `ConditionalDistribution.sample` (with `num_of_samples = 1`): asserts
preprocessing; `KeyError` when the parent-value tuple is not a key of the
lookup; otherwise draws from the group's candidate outcomes. -/
def ConditionalDistribution.sample (d : ConditionalDistribution)
    (evidence : List String) (r : Nat) : Except PyError String :=
  if d.is_preprocessed = false then Except.error PyError.assertionError
  else
    match lookup_find d.conditional_distribution_lookup evidence with
    | none => Except.error PyError.keyError
    | some g =>
        if g.1.isEmpty then Except.error PyError.valueError
        else Except.ok (g.1.getD (r % g.1.length) "")

/-- `ConditionalDistribution.is_value_possible`: `value in self._values` with
no preprocessing assert — before `preprocess` the membership test runs on
`None` and raises `TypeError`. -/
def ConditionalDistribution.is_value_possible (d : ConditionalDistribution)
    (value : String) : Except PyError Bool :=
  match d.vals with
  | none => Except.error PyError.typeError
  | some vs => Except.ok (vs.contains value)

/-- `ConditionalDistribution.get_random_value`: asserts `_values` truthy, then
a uniform `random.choice`. -/
def ConditionalDistribution.get_random_value (d : ConditionalDistribution) (r : Nat) :
    Except PyError String :=
  match d.vals with
  | none => Except.error PyError.assertionError
  | some vs =>
      if vs.isEmpty then Except.error PyError.assertionError
      else Except.ok (vs.getD (r % vs.length) "")

/-- `ConditionalDistribution.get_dependencies_possible_values`: yields, for
`i in range(num_of_dependencies - 2)`, the set of values of column `i`.
Note the source iterates up to `num_of_dependencies - 2`, not
`num_of_dependencies`, so for tables with two or fewer parent columns the
generator yields nothing. -/
def ConditionalDistribution.get_dependencies_possible_values
    (d : ConditionalDistribution) : List (List String) :=
  (List.range (d.num_of_dependencies - 2)).map
    (fun i => (d.distribution.map (fun row => row.1.getD i "")).dedup)

/-- The tagged union of the two distribution kinds. -/
inductive Distribution where
  | discrete (d : DiscreteDistribution)
  | conditional (d : ConditionalDistribution)
  deriving DecidableEq, Repr

/-- `isinstance(distribution, ConditionalDistribution)`. -/
def Distribution.isConditional : Distribution → Bool
  | Distribution.discrete _ => false
  | Distribution.conditional _ => true

/-- Dispatch of `distribution.preprocess()`. -/
def Distribution.preprocess : Distribution → Except PyError Distribution
  | Distribution.discrete d => Except.ok (Distribution.discrete d.preprocess)
  | Distribution.conditional d =>
      match d.preprocess with
      | Except.ok d2 => Except.ok (Distribution.conditional d2)
      | Except.error e => Except.error e

/-- Dispatch of `distribution.is_value_possible(value)`. -/
def Distribution.is_value_possible : Distribution → String → Except PyError Bool
  | Distribution.discrete d, v => d.is_value_possible v
  | Distribution.conditional d, v => d.is_value_possible v

/-- Dispatch of `distribution.get_random_value()`. -/
def Distribution.get_random_value : Distribution → Nat → Except PyError String
  | Distribution.discrete d, r => d.get_random_value r
  | Distribution.conditional d, r => d.get_random_value r

/-- `Node` state (`bayesNetwork.py`).  Structural links are stored as names;
in a network node names are unique, so a name identifies the live object. -/
structure Node where
  name : String
  children : List String
  parents : List String
  parents_order : List String
  markov_blanket : List String
  distribution : Distribution
  is_dependent : Bool
  counter : List (String × Nat)
  evidence : Option String
  static_value : Option String
  deriving DecidableEq, Repr

/-- `Node.__init__`. -/
def Node.init (distribution : Distribution) (name : String) : Node :=
  { name := name
    children := []
    parents := []
    parents_order := []
    markov_blanket := []
    distribution := distribution
    is_dependent := distribution.isConditional
    counter := []
    evidence := none
    static_value := none }

/-- Python dictionary assignment `d[k] = v` on a name-keyed dictionary viewed
as its ordered key list: a new key is appended, an existing key stays put. -/
def dict_insert (l : List String) (k : String) : List String :=
  if l.contains k then l else l ++ [k]

/-- `Node.add_parent`: asserts the parent is a distinct node (distinct name,
since network-registered nodes have unique names) and that this node's
distribution is conditional; `ValueError` when the parent is already a child
(2-cycle) or already a parent; otherwise records the parent in `parents`,
`parents_order` and the Markov blanket. -/
def Node.add_parent (n : Node) (parent : Node) : Except PyError Node :=
  if parent.name = n.name then Except.error PyError.assertionError
  else
    match n.distribution with
    | Distribution.discrete _ => Except.error PyError.assertionError
    | Distribution.conditional _ =>
        if n.children.contains parent.name then Except.error PyError.valueError
        else if n.parents.contains parent.name then Except.error PyError.valueError
        else
          Except.ok
            { n with
              parents := n.parents ++ [parent.name]
              parents_order := n.parents_order ++ [parent.name]
              markov_blanket := dict_insert n.markov_blanket parent.name }

/-- `Node.add_child`: asserts the child is a distinct node; `ValueError` when
the child is already a parent; silently does nothing when the child is already
known; otherwise records the child in `children` and the Markov blanket. -/
def Node.add_child (n : Node) (child : Node) : Except PyError Node :=
  if child.name = n.name then Except.error PyError.assertionError
  else if n.parents.contains child.name then Except.error PyError.valueError
  else if n.children.contains child.name then Except.ok n
  else
    Except.ok
      { n with
        children := n.children ++ [child.name]
        markov_blanket := dict_insert n.markov_blanket child.name }

/-- The network arena: insertion-ordered association list from name to node,
mirroring the `self.nodes` dictionary together with Python's object graph. -/
abbrev NetMap := List (String × Node)

/-- Dereference a node by name (first entry with that key, as in a dict). -/
def findNode : NetMap → String → Option Node
  | [], _ => none
  | p :: rest, name => if p.1 = name then some p.2 else findNode rest name

/-- Write back a mutated node under its name. -/
def updateNode : NetMap → String → Node → NetMap
  | [], _, _ => []
  | p :: rest, name, nd =>
      (if p.1 = name then (p.1, nd) else p) :: updateNode rest name nd

/-- The co-parent loop of `Node.preprocess`: for every child, add each of the
child's parents except this node itself to the Markov blanket.  Children hold
direct references in the source; under the network invariant every child name
is registered, so the `none` fallback is never taken. -/
def coparents_fold (net : NetMap) (selfName : String) (mb : List String)
    (children : List String) : List String :=
  children.foldl
    (fun acc cname =>
      match findNode net cname with
      | some c =>
          c.parents.foldl
            (fun acc2 pname => if pname = selfName then acc2 else dict_insert acc2 pname)
            acc
      | none => acc)
    mb

/-- The inner loop of the parent-order check in `Node.preprocess`
(`for i, value in enumerate(possible_values)`).  The source calls
`self.parents[self.parents_order[i]].is_value_possible()` **without the value
argument**, so on the first element it raises `IndexError` when the node has
no registered parents and `TypeError` otherwise; the intended `RuntimeError`
branch is unreachable. -/
def inner_order_check (n : Node) (possible_values : List String) :
    Except PyError Unit :=
  match possible_values with
  | [] => Except.ok ()
  | _ :: _ =>
      match n.parents_order.get? 0 with
      | none => Except.error PyError.indexError
      | some _ => Except.error PyError.typeError

/-- The outer loop of the parent-order check in `Node.preprocess`
(`for possible_values in self.distribution.get_dependencies_possible_values()`). -/
def order_check_go (n : Node) : List (List String) → Except PyError Unit
  | [] => Except.ok ()
  | pv :: rest =>
      match inner_order_check n pv with
      | Except.ok _ => order_check_go n rest
      | Except.error e => Except.error e

/-- `Node.preprocess`: extends the Markov blanket with co-parents (excluding
self), preprocesses the owned distribution, and for conditional distributions
runs the (broken) parent-order check. -/
def Node.preprocess (net : NetMap) (n : Node) : Except PyError Node :=
  let mb := coparents_fold net n.name n.markov_blanket n.children
  match n.distribution.preprocess with
  | Except.error e => Except.error e
  | Except.ok dist2 =>
      match dist2 with
      | Distribution.discrete _ =>
          Except.ok { n with markov_blanket := mb, distribution := dist2 }
      | Distribution.conditional cd =>
          match order_check_go n cd.get_dependencies_possible_values with
          | Except.ok _ =>
              Except.ok { n with markov_blanket := mb, distribution := dist2 }
          | Except.error e => Except.error e

/-- `self.counter.setdefault(sample, 0); self.counter[sample] += 1`:
increment in place when the key exists, else append the key with count 1. -/
def counter_bump : List (String × Nat) → String → List (String × Nat)
  | [], s => [(s, 1)]
  | (k, v) :: rest, s =>
      if k = s then (k, v + 1) :: rest else (k, v) :: counter_bump rest s

/-- The draw inside `Node.sample`: dependent nodes require observations and
draw from the conditional table; independent nodes draw from the discrete
table.  The `is_dependent`/distribution-kind mismatch arms are unreachable
(`is_dependent` is fixed at construction): an independent call on a
conditional distribution would be `sample()` missing its `evidence` argument
(`TypeError`). -/
def Node.draw_from_distribution (n : Node) (observations : Option (List String))
    (r : Nat) : Except PyError String :=
  if n.is_dependent then
    match observations with
    | none => Except.error PyError.assertionError
    | some obs =>
        match n.distribution with
        | Distribution.conditional cd => cd.sample obs r
        | Distribution.discrete dd => dd.sample r
  else
    match n.distribution with
    | Distribution.discrete dd => dd.sample r
    | Distribution.conditional _ => Except.error PyError.typeError

/-- `Node.sample`: with neither evidence nor static value set, draw from the
distribution and count the drawn value; evidence takes precedence over the
static value and both bypass the draw and the counter. -/
def Node.sample (n : Node) (observations : Option (List String)) (rng : Rng) :
    Except PyError (String × Node × Rng) :=
  match n.evidence, n.static_value with
  | none, none =>
      let (r, rng2) := rngNext rng
      match n.draw_from_distribution observations r with
      | Except.error e => Except.error e
      | Except.ok s =>
          Except.ok (s, { n with counter := counter_bump n.counter s }, rng2)
  | some e, _ => Except.ok (e, n, rng)
  | none, some v => Except.ok (v, n, rng)

/-- `Node.set_evidence`: asserts the value is possible in the distribution. -/
def Node.set_evidence (n : Node) (value : String) : Except PyError Node :=
  match n.distribution.is_value_possible value with
  | Except.error e => Except.error e
  | Except.ok true => Except.ok { n with evidence := some value }
  | Except.ok false => Except.error PyError.assertionError

/-- `Node.set_static_value`: asserts the value is possible in the
distribution. -/
def Node.set_static_value (n : Node) (value : String) : Except PyError Node :=
  match n.distribution.is_value_possible value with
  | Except.error e => Except.error e
  | Except.ok true => Except.ok { n with static_value := some value }
  | Except.ok false => Except.error PyError.assertionError

/-- `Node.set_non_static`. -/
def Node.set_non_static (n : Node) : Node := { n with static_value := none }

/-- `Node.set_random_initial_value`: a uniform draw over the distribution's
legal values, stored as the static value. -/
def Node.set_random_initial_value (n : Node) (rng : Rng) :
    Except PyError (Node × Rng) :=
  let (r, rng2) := rngNext rng
  match n.distribution.get_random_value r with
  | Except.error e => Except.error e
  | Except.ok v => Except.ok ({ n with static_value := some v }, rng2)

/-- `Node.reset_counters`. -/
def Node.reset_counters (n : Node) : Node := { n with counter := [] }

/-- Total number of recorded occurrences. -/
def counter_total (c : List (String × Nat)) : Nat := (c.map Prod.snd).sum

/-- `Node.get_prob`: `None` when no occurrence was counted, else the
count/total empirical distribution. -/
def Node.get_prob (n : Node) : Option (List (String × ℚ)) :=
  if n.counter.isEmpty then none
  else some (n.counter.map (fun p => (p.1, (p.2 : ℚ) / (counter_total n.counter : ℚ))))

/-- `BayesNetwork.add_nodes`: registers nodes by name, `ValueError` on a
duplicate name.  Nodes already registered before the failing one stay
registered (the Python loop mutates as it goes). -/
def add_nodes : NetMap → List Node → NetMap × Except PyError Unit
  | net, [] => (net, Except.ok ())
  | net, nd :: rest =>
      if (findNode net nd.name).isSome then (net, Except.error PyError.valueError)
      else add_nodes (net ++ [(nd.name, nd)]) rest

/-- `BayesNetwork.add_edge`: requires both names registered, then
`parent.add_child(child)` **followed by** `child.add_parent(parent)`.  When
`add_child` succeeds but `add_parent` fails, the child link added by the first
call remains (the exception aborts the method after the first mutation). -/
def add_edge (net : NetMap) (pname cname : String) : NetMap × Except PyError Unit :=
  match findNode net pname, findNode net cname with
  | none, _ => (net, Except.error PyError.valueError)
  | some _, none => (net, Except.error PyError.valueError)
  | some p, some c =>
      match p.add_child c with
      | Except.error e => (net, Except.error e)
      | Except.ok p2 =>
          let net1 := updateNode net pname p2
          match findNode net1 cname with
          | none => (net1, Except.error PyError.keyError)
          | some c1 =>
              match c1.add_parent p2 with
              | Except.error e => (net1, Except.error e)
              | Except.ok c2 => (updateNode net1 cname c2, Except.ok ())

/-- The node-by-node loop of `BayesNetwork.preprocess`; each node is
preprocessed against the current (partially updated) network, exactly as the
live references behave in the source. -/
def net_preprocess_go : NetMap → List String → NetMap × Except PyError Unit
  | net, [] => (net, Except.ok ())
  | net, name :: rest =>
      match findNode net name with
      | none => (net, Except.error PyError.keyError)
      | some nd =>
          match nd.preprocess net with
          | Except.error e => (net, Except.error e)
          | Except.ok nd2 => net_preprocess_go (updateNode net name nd2) rest

/-- `BayesNetwork.preprocess`: asserts a non-empty node set, then preprocesses
every node. -/
def net_preprocess (net : NetMap) : NetMap × Except PyError Unit :=
  if net.isEmpty then (net, Except.error PyError.assertionError)
  else net_preprocess_go net (net.map Prod.fst)

/-- `BayesNetwork._set_evidences`: clamps node after node in mapping order; an
unknown name raises `KeyError` at its turn, after the earlier entries have
already been clamped. -/
def set_evidences : NetMap → List (String × String) → NetMap × Except PyError Unit
  | net, [] => (net, Except.ok ())
  | net, (name, state) :: rest =>
      match findNode net name with
      | none => (net, Except.error PyError.keyError)
      | some nd =>
          match nd.set_evidence state with
          | Except.error e => (net, Except.error e)
          | Except.ok nd2 => set_evidences (updateNode net name nd2) rest

/-- `BayesNetwork._reset_counters` (the surrounding non-emptiness assert has
already been established by `gibbs` when this runs). -/
def reset_all_counters (net : NetMap) : NetMap :=
  net.map (fun p => (p.1, p.2.reset_counters))

/-- `BayesNetwork._get_nodes_without_evidence`: the registered nodes, in
insertion order, whose **name is not a key of the current call's evidence
mapping** (the node's own `evidence` field is not consulted). -/
def nodes_without_evidence (net : NetMap) (evidence : List (String × String)) :
    List String :=
  (net.filter (fun p => (evidence.find? (fun q => q.1 = p.1)).isNone)).map Prod.fst

/-- The seeding loop of `gibbs`: every node without (call) evidence receives a
uniformly random initial static value. -/
def set_random_initial_values : NetMap → List String → Rng → NetMap × Rng × Except PyError Unit
  | net, [], rng => (net, rng, Except.ok ())
  | net, name :: rest, rng =>
      match findNode net name with
      | none => (net, rng, Except.error PyError.keyError)
      | some nd =>
          match nd.set_random_initial_value rng with
          | Except.error e => (net, rng, Except.error e)
          | Except.ok (nd2, rng2) => set_random_initial_values (updateNode net name nd2) rest rng2

/-- The parent-gathering loop of `Node.sample_given_markov_blanket`:
`markov_blanket[name].sample()` for each name in `parents_order`, in order.
`KeyError` when a parent name is missing from the blanket; each parent's
`sample()` call can mutate that parent (its occurrence counter), and those
mutations persist even when a later parent fails. -/
def gather_observations (blanket : List String) :
    NetMap → List String → Rng → NetMap × Rng × Except PyError (List String)
  | net, [], rng => (net, rng, Except.ok [])
  | net, pname :: rest, rng =>
      if blanket.contains pname = false then (net, rng, Except.error PyError.keyError)
      else
        match findNode net pname with
        | none => (net, rng, Except.error PyError.keyError)
        | some p =>
            match p.sample none rng with
            | Except.error e => (net, rng, Except.error e)
            | Except.ok (s, p2, rng2) =>
                match gather_observations blanket (updateNode net pname p2) rest rng2 with
                | (net2, rng3, Except.ok obs) => (net2, rng3, Except.ok (s :: obs))
                | (net2, rng3, Except.error e) => (net2, rng3, Except.error e)

/-- `Node.sample_given_markov_blanket` for the node registered under `name`:
gather the parents' current values in registered order, then sample this node
with those observations, propagating any failure unchanged. -/
def sample_given_markov_blanket (net : NetMap) (name : String)
    (blanket : List String) (rng : Rng) : NetMap × Rng × Except PyError String :=
  match findNode net name with
  | none => (net, rng, Except.error PyError.keyError)
  | some selfNd =>
      match gather_observations blanket net selfNd.parents_order rng with
      | (net2, rng2, Except.error e) => (net2, rng2, Except.error e)
      | (net2, rng2, Except.ok obs) =>
          match findNode net2 name with
          | none => (net2, rng2, Except.error PyError.keyError)
          | some selfNd2 =>
              match selfNd2.sample (some obs) rng2 with
              | Except.error e => (net2, rng2, Except.error e)
              | Except.ok (s, nd3, rng3) => (updateNode net2 name nd3, rng3, Except.ok s)

/-- One iteration of the Monte-Carlo loop of `gibbs`: pick a node uniformly
from the no-evidence list, clear its static value, resample it given its
Markov blanket, and store the result as its new static value. -/
def gibbs_step (uNames : List String) (net : NetMap) (rng : Rng) :
    NetMap × Rng × Except PyError Unit :=
  let (r, rng1) := rngNext rng
  let name := uNames.getD (r % uNames.length) ""
  match findNode net name with
  | none => (net, rng1, Except.error PyError.keyError)
  | some nd =>
      let nd1 := nd.set_non_static
      let net1 := updateNode net name nd1
      match sample_given_markov_blanket net1 name nd1.markov_blanket rng1 with
      | (net2, rng2, Except.error e) => (net2, rng2, Except.error e)
      | (net2, rng2, Except.ok value) =>
          match findNode net2 name with
          | none => (net2, rng2, Except.error PyError.keyError)
          | some nd2 =>
              match nd2.set_static_value value with
              | Except.error e => (net2, rng2, Except.error e)
              | Except.ok nd3 => (updateNode net2 name nd3, rng2, Except.ok ())

/-- The `for i in range(n)` loop of `gibbs`; an error in any iteration aborts
the loop, leaving the state accumulated so far. -/
def gibbs_loop (uNames : List String) : Nat → NetMap → Rng → NetMap × Rng × Except PyError Unit
  | 0, net, rng => (net, rng, Except.ok ())
  | k + 1, net, rng =>
      match gibbs_step uNames net rng with
      | (net1, rng1, Except.ok _) => gibbs_loop uNames k net1 rng1
      | (net1, rng1, Except.error e) => (net1, rng1, Except.error e)

/-- `BayesNetwork.gibbs`: non-emptiness assert; `ValueError` when a query name
is also an evidence key; assert (`_check_query`) that every query name is
registered; clamp the evidence; reset all counters; `ValueError` when every
node has (call) evidence; seed the no-evidence nodes; run the loop; report
`get_prob()` for each query name.  The returned `NetMap` is the network state
when the call returns or raises. -/
def gibbs (net : NetMap) (evidence : List (String × String)) (query : List String)
    (n : Nat) (rng : Rng) :
    NetMap × Except PyError (List (String × Option (List (String × ℚ)))) :=
  if net.isEmpty then (net, Except.error PyError.assertionError)
  else if query.any (fun qn => (evidence.find? (fun p => p.1 = qn)).isSome) then
    (net, Except.error PyError.valueError)
  else if query.any (fun qn => (findNode net qn).isNone) then
    (net, Except.error PyError.assertionError)
  else
    match set_evidences net evidence with
    | (net1, Except.error e) => (net1, Except.error e)
    | (net1, Except.ok _) =>
        let net2 := reset_all_counters net1
        let uNames := nodes_without_evidence net2 evidence
        if uNames.isEmpty then (net2, Except.error PyError.valueError)
        else
          match set_random_initial_values net2 uNames rng with
          | (net3, _, Except.error e) => (net3, Except.error e)
          | (net3, rng1, Except.ok _) =>
              match gibbs_loop uNames n net3 rng1 with
              | (net4, _, Except.error e) => (net4, Except.error e)
              | (net4, _, Except.ok _) =>
                  (net4,
                   Except.ok (query.map (fun qn => (qn, (findNode net4 qn).bind Node.get_prob))))


/-! ### Derived and spec-modelled definitions -/

/-- Dictionary access `counter.get(s, 0)` used to state counting facts. -/
def count_of : List (String × Nat) → String → Nat
  | [], _ => 0
  | p :: rest, s => if p.1 = s then p.2 else count_of rest s

/-- The outcome labels a distribution admits, read from the constructor
tables (keys of an unconditional table; distinct `x[-2]` cells of a
conditional table). -/
def distribution_outcomes : Distribution → List String
  | Distribution.discrete d => d.distribution.map Prod.fst
  | Distribution.conditional d => (d.distribution.map (fun row => row.1.getLastD "")).dedup

/-- Modelled from the spec: the registered-parent-order/table-column
consistency that `Node.preprocess` is documented to verify (the check at
`bayesNetwork.py:118-125` is inoperative, see `C1_parent_order_check_broken`):
every value appearing in parent column `i` of the conditional table must be a
possible value of the node registered at position `i` of `parents_order`. -/
def parents_order_consistent (net : NetMap) (n : Node) : Bool :=
  match n.distribution with
  | Distribution.discrete _ => true
  | Distribution.conditional cd =>
      (List.range cd.num_of_dependencies).all (fun i =>
        (cd.distribution.map (fun row => row.1.getD i "")).all (fun v =>
          match n.parents_order.get? i with
          | none => false
          | some pname =>
              match findNode net pname with
              | none => false
              | some p => (distribution_outcomes p.distribution).contains v))

/-- The per-node structural invariant maintained by the Network API before
preprocessing: the Markov blanket holds exactly the parents and children, and
a node is linked neither to itself as parent nor as child. -/
def node_wf (n : Node) : Bool :=
  n.markov_blanket.all (fun x => n.parents.contains x || n.children.contains x) &&
  n.parents.all (fun x => n.markov_blanket.contains x) &&
  n.children.all (fun x => n.markov_blanket.contains x) &&
  !(n.parents.contains n.name) && !(n.children.contains n.name)

/-- Key/name coherence of the arena: every stored node is registered under
its own name (the Network API only ever registers a node under `node.name`). -/
def names_coherent (net : NetMap) : Bool :=
  net.all (fun pr => pr.2.name = pr.1)

/-- The stale-evidence frame condition of C5: the node registered under `X`
carries evidence `v`, an empty occurrence counter, and some working (static)
value. -/
def evidence_clamped (m : NetMap) (X v : String) : Prop :=
  ∃ nd, findNode m X = some nd ∧ nd.evidence = some v ∧ nd.counter = [] ∧
    nd.static_value.isSome = true

/-! ### Concrete fixtures (used by witnesses and counterexamples) -/

/-- A one-outcome unconditional table `{a: 1.0}`. -/
def dA : DiscreteDistribution := { distribution := [("a", 1)] }

/-- A one-outcome unconditional table `{b: 1.0}`. -/
def dB : DiscreteDistribution := { distribution := [("b", 1)] }

def nodeA : Node := Node.init (Distribution.discrete dA) "A"

def nodeB : Node := Node.init (Distribution.discrete dB) "B"

/-- The network holding `A` and `B`, as registered. -/
def net0 : NetMap := (add_nodes [] [nodeA, nodeB]).1

/-- The network holding `A` and `B`, preprocessed. -/
def net1 : NetMap := (net_preprocess net0).1

/-- `net1` with evidence `a` clamped on `A` by the caller through
`set_evidence` — the stale-evidence scenario of C5. -/
def net1e : NetMap :=
  match findNode net1 "A" with
  | some nd =>
      match nd.set_evidence "a" with
      | Except.ok nd2 => updateNode net1 "A" nd2
      | Except.error _ => net1
  | none => net1

/-- A conditional table with two parent columns,
`[['a', 'b', 'X', 1.0]]`. -/
def cdistC : ConditionalDistribution :=
  match ConditionalDistribution.init [(["a", "b", "X"], 1)] with
  | Except.ok d => d
  | Except.error _ => { distribution := [], dist_len := 0, num_of_dependencies := 0 }

/-- Parent whose only value is `b`. -/
def dP1 : DiscreteDistribution := { distribution := [("b", 1)] }

/-- Parent whose only value is `a`. -/
def dP2 : DiscreteDistribution := { distribution := [("a", 1)] }

def nodeP1 : Node := Node.init (Distribution.discrete dP1) "P1"

def nodeP2 : Node := Node.init (Distribution.discrete dP2) "P2"

def nodeC : Node := Node.init (Distribution.conditional cdistC) "C"

def netC0 : NetMap := (add_nodes [] [nodeP1, nodeP2, nodeC]).1

/-- Edges registered in the order `P1`, `P2` — inconsistent with the table of
`cdistC`, whose column 0 holds `a` (a value of `P2`) and column 1 holds `b`
(a value of `P1`). -/
def netC1 : NetMap := (add_edge netC0 "P1" "C").1

def netC2 : NetMap := (add_edge netC1 "P2" "C").1

/-- The conditional node of `netC2` before network preprocessing. -/
def ndC2 : Node := (findNode netC2 "C").getD nodeC

/-- A conditional table with three parent columns,
`[['a', 'b', 'c', 'X', 1.0]]`. -/
def cdistC3 : ConditionalDistribution :=
  match ConditionalDistribution.init [(["a", "b", "c", "X"], 1)] with
  | Except.ok d => d
  | Except.error _ => { distribution := [], dist_len := 0, num_of_dependencies := 0 }

/-- Parent whose only value is `c`. -/
def dP3 : DiscreteDistribution := { distribution := [("c", 1)] }

def nodeP3 : Node := Node.init (Distribution.discrete dP3) "P3"

def nodeC3 : Node := Node.init (Distribution.conditional cdistC3) "C3"

def netD0 : NetMap := (add_nodes [] [nodeP2, nodeP1, nodeP3, nodeC3]).1

/-- Edges registered in the order `P2`, `P1`, `P3` — **consistent** with the
columns `a`, `b`, `c` of `cdistC3`. -/
def netD1 : NetMap := (add_edge netD0 "P2" "C3").1

def netD2 : NetMap := (add_edge netD1 "P1" "C3").1

def netD3 : NetMap := (add_edge netD2 "P3" "C3").1

/-- The conditional node of `netD3` before network preprocessing. -/
def ndC3r : Node := (findNode netD3 "C3").getD nodeC3

/-- A one-parent conditional table `[['a', 'X', 1.0]]`. -/
def cdistCC : ConditionalDistribution :=
  match ConditionalDistribution.init [(["a", "X"], 1)] with
  | Except.ok d => d
  | Except.error _ => { distribution := [], dist_len := 0, num_of_dependencies := 0 }

def nodeCC : Node := Node.init (Distribution.conditional cdistCC) "CC"

def netF0 : NetMap := (add_nodes [] [nodeA, nodeCC]).1

/-- The one-parent conditional table of `cdistCC`, preprocessed (the state
`ConditionalDistribution.preprocess` produces on it). -/
def cdZ : ConditionalDistribution :=
  { distribution := [(["a", "X"], 1)]
    dist_len := 1
    num_of_dependencies := 1
    conditional_distribution_lookup := [(["a"], (["X"], [1]))]
    vals := some ["X"]
    is_preprocessed := true }

/-- A parentless node carrying the preprocessed conditional table `cdZ`; its
empty observation tuple matches no group of the table. -/
def ndZ : Node := Node.init (Distribution.conditional cdZ) "Z"

def netZ : NetMap := (add_nodes [] [ndZ]).1

/-- The preprocessed node `A` of `net1`. -/
def nodeAp : Node := (findNode net1 "A").getD nodeA

/-- The preprocessed node `B` of `net1`. -/
def nodeBp : Node := (findNode net1 "B").getD nodeB

/-- The distribution of `nodeBp`. -/
def dBp : DiscreteDistribution := dB.preprocess

/-- Distribution and nodes for the Markov-blanket witness: `X` and `W` are
co-parents of the conditional node `Y`. -/
def dX : DiscreteDistribution := { distribution := [("x", 1)] }

def dW : DiscreteDistribution := { distribution := [("w", 1)] }

def cdY : ConditionalDistribution :=
  match ConditionalDistribution.init [(["x", "w", "Y1"], 1)] with
  | Except.ok d => d
  | Except.error _ => { distribution := [], dist_len := 0, num_of_dependencies := 0 }

def nodeX : Node := Node.init (Distribution.discrete dX) "X"

def nodeY : Node := Node.init (Distribution.conditional cdY) "Y"

def nodeW : Node := Node.init (Distribution.discrete dW) "W"

def netG0 : NetMap := (add_nodes [] [nodeX, nodeY, nodeW]).1

def netG1 : NetMap := (add_edge netG0 "X" "Y").1

def netG2 : NetMap := (add_edge netG1 "W" "Y").1

/-- The node `X` of `netG2` (parent of `Y`, co-parent of `W`). -/
def ndX2 : Node := (findNode netG2 "X").getD nodeX

/-! ### General lemmas about the network map -/

theorem findNode_updateNode_self (net : NetMap) (k : String) (nd : Node)
    (h : (findNode net k).isSome) : findNode (updateNode net k nd) k = some nd := by
  induction net with
  | nil => simp [findNode] at h
  | cons p rest ih =>
      by_cases hk : p.1 = k
      · simp [findNode, updateNode, hk]
      · simpa [findNode, updateNode, hk] using ih (by simpa [findNode, hk] using h)

theorem findNode_updateNode_ne (net : NetMap) (k k2 : String) (nd : Node)
    (h : k ≠ k2) : findNode (updateNode net k nd) k2 = findNode net k2 := by
  have h2 : ¬ (k2 = k) := fun hh => h hh.symm
  induction net with
  | nil => simp [findNode, updateNode]
  | cons p rest ih =>
      by_cases hk : p.1 = k
      · simp [findNode, updateNode, hk, h, ih]
      · by_cases hk2 : p.1 = k2
        · simp [findNode, updateNode, hk, hk2, h2]
        · simp [findNode, updateNode, hk, hk2, ih]

theorem findNode_updateNode_isSome (net : NetMap) (k k2 : String) (nd : Node) :
    (findNode (updateNode net k nd) k2).isSome = (findNode net k2).isSome := by
  induction net with
  | nil => simp [findNode, updateNode]
  | cons p rest ih =>
      by_cases hk : p.1 = k
      · by_cases hkk : k = k2 <;> simp [findNode, updateNode, hk, hkk, ih]
      · by_cases hk2 : p.1 = k2
        · have h2 : ¬ (k2 = k) := fun hh => hk (hk2.trans hh)
          simp [findNode, updateNode, hk, hk2, h2]
        · simp [findNode, updateNode, hk, hk2, ih]

theorem contains_iff_mem (l : List String) (x : String) :
    l.contains x = true ↔ x ∈ l := List.elem_iff

theorem dict_insert_mem (l : List String) (k x : String) :
    x ∈ dict_insert l k ↔ x ∈ l ∨ x = k := by
  by_cases h : l.contains k
  · have hk : k ∈ l := (contains_iff_mem l k).1 h
    simp only [dict_insert, h, if_pos]
    constructor
    · exact Or.inl
    · rintro (hx | rfl)
      · exact hx
      · exact hk
  · have hk : k ∉ l := fun hm => h ((contains_iff_mem l k).2 hm)
    simp [dict_insert, h, hk, List.mem_append]

/-! ### Counter lemmas -/

theorem count_of_bump_self (c : List (String × Nat)) (s : String) :
    count_of (counter_bump c s) s = count_of c s + 1 := by
  induction c with
  | nil => simp [counter_bump, count_of]
  | cons p rest ih =>
      rcases p with ⟨k, v⟩
      by_cases h : k = s <;> simp [counter_bump, count_of, h, ih]

theorem count_of_bump_ne (c : List (String × Nat)) (s t : String) (h : t ≠ s) :
    count_of (counter_bump c s) t = count_of c t := by
  have hst : ¬ (s = t) := fun hh => h hh.symm
  induction c with
  | nil => simp [counter_bump, count_of, hst]
  | cons p rest ih =>
      rcases p with ⟨k, v⟩
      by_cases hk : k = s
      · subst hk
        simp [counter_bump, count_of, hst]
      · by_cases ht : k = t <;> simp [counter_bump, count_of, hk, ht, h, ih]

/-! ### Node.sample behaviour lemmas -/

theorem sample_evidence (n : Node) (e : String) (observations : Option (List String))
    (rng : Rng) (h : n.evidence = some e) :
    n.sample observations rng = Except.ok (e, n, rng) := by
  unfold Node.sample
  rw [h]

theorem sample_static (n : Node) (v : String) (observations : Option (List String))
    (rng : Rng) (he : n.evidence = none) (hs : n.static_value = some v) :
    n.sample observations rng = Except.ok (v, n, rng) := by
  unfold Node.sample
  rw [he, hs]

/-! ### Claim C6 — distribution validation -/

theorem build_lookup_isOk (distribution : List CondRow) (num : Nat) :
    ∀ evs : List (List String),
      (build_lookup distribution num evs).isOk = true ↔
        ∀ ev ∈ evs,
          (get_possible_values_and_weight_for_evidence distribution num ev).2.sum = 1
  | [] => by simp [build_lookup, Except.isOk, Except.toBool]
  | ev :: rest => by
      have ih := build_lookup_isOk distribution num rest
      by_cases h : (get_possible_values_and_weight_for_evidence distribution num ev).2.sum = 1
      · cases hrec : build_lookup distribution num rest with
        | ok tail =>
            rw [hrec] at ih
            simp only [build_lookup, h, if_pos, hrec, Except.isOk, Except.toBool,
              List.mem_cons] at ih ⊢
            constructor
            · intro _ x hx
              rcases hx with hx | hx
              · exact hx ▸ h
              · exact ih.1 trivial x hx
            · intro _
              trivial
        | error e =>
            rw [hrec] at ih
            simp only [build_lookup, h, if_pos, hrec, Except.isOk, Except.toBool,
              List.mem_cons] at ih ⊢
            constructor
            · intro hfalse
              exact absurd hfalse (by simp)
            · intro hall
              exact absurd (ih.2 (fun x hx => hall x (Or.inr hx))) (by simp)
      · simp only [build_lookup, h, if_neg, Except.isOk, Except.toBool, List.mem_cons]
        constructor
        · intro hfalse
          exact absurd hfalse (by simp)
        · intro hall
          exact absurd (hall ev (Or.inl rfl)) h

theorem cond_preprocess_isOk (d : ConditionalDistribution) :
    (d.preprocess).isOk = true ↔
      ∀ ev ∈ d.possible_evidences,
        (get_possible_values_and_weight_for_evidence d.distribution
          d.num_of_dependencies ev).2.sum = 1 := by
  rw [← build_lookup_isOk d.distribution d.num_of_dependencies d.possible_evidences]
  unfold ConditionalDistribution.preprocess
  cases hb : build_lookup d.distribution d.num_of_dependencies d.possible_evidences <;>
    simp [hb, Except.isOk, Except.toBool]

/-- C6 counterexample: the table `{A: -1.0, B: 2.0}` has a negative
probability yet sums to 1, so `DiscreteDistribution.__init__` accepts it,
refuting the claim that construction fails unless all probabilities are
non-negative. -/
theorem C6_counterexample :
    (DiscreteDistribution.init [("A", (-1 : ℚ)), ("B", (2 : ℚ))]).isOk = true ∧
    ((-1 : ℚ) < 0) := by
  constructor
  · norm_num [DiscreteDistribution.init, Except.isOk, Except.toBool]
  · norm_num

/-- C6 (amended): unconditional construction succeeds exactly when the
probabilities sum to 1 (exact equality: no non-negativity check and no
tolerance), and conditional `preprocess()` succeeds exactly when every
parent-value group's weights sum to 1 (exact equality). -/
theorem C6_exact_sum_validation :
    (∀ dist : List (String × ℚ),
        (DiscreteDistribution.init dist).isOk = true ↔ (dist.map Prod.snd).sum = 1) ∧
    (∀ d : ConditionalDistribution,
        (d.preprocess).isOk = true ↔
          ∀ ev ∈ d.possible_evidences,
            (get_possible_values_and_weight_for_evidence d.distribution
              d.num_of_dependencies ev).2.sum = 1) := by
  constructor
  · intro dist
    by_cases h : (dist.map Prod.snd).sum = 1 <;>
      simp [DiscreteDistribution.init, h, Except.isOk, Except.toBool]
  · exact cond_preprocess_isOk

/-- Witness for C6: a one-outcome table summing to 1 is accepted, via the
amended theorem. -/
theorem C6_exact_sum_validation_witness :
    (DiscreteDistribution.init [("A", (1 : ℚ))]).isOk = true :=
  (C6_exact_sum_validation.1 [("A", (1 : ℚ))]).2 (by norm_num)

/-! ### Claim C7 — LookupError propagation -/

/-- C7: a preprocessed conditional distribution's `sample` fails with
`KeyError` (Python's `LookupError`) whenever the supplied parent-value tuple
matches no group; the failure propagates unchanged out of
`sample_given_markov_blanket`; and an error raised by one Gibbs iteration
propagates unchanged out of the iteration loop. -/
theorem C7_lookup_error_propagation :
    (∀ (d : ConditionalDistribution) (ev : List String) (r : Nat),
        d.is_preprocessed = true →
        lookup_find d.conditional_distribution_lookup ev = none →
        d.sample ev r = Except.error PyError.keyError) ∧
    (∀ (net net2 : NetMap) (name : String) (blanket : List String)
        (rng rng2 : Rng) (obs : List String) (selfNd n2 : Node)
        (cd : ConditionalDistribution),
        findNode net name = some selfNd →
        gather_observations blanket net selfNd.parents_order rng =
          (net2, rng2, Except.ok obs) →
        findNode net2 name = some n2 →
        n2.evidence = none → n2.static_value = none → n2.is_dependent = true →
        n2.distribution = Distribution.conditional cd →
        cd.is_preprocessed = true →
        lookup_find cd.conditional_distribution_lookup obs = none →
        sample_given_markov_blanket net name blanket rng =
          (net2, rng2, Except.error PyError.keyError)) ∧
    (∀ (uNames : List String) (k : Nat) (net net1 : NetMap) (rng rng1 : Rng)
        (e : PyError),
        gibbs_step uNames net rng = (net1, rng1, Except.error e) →
        gibbs_loop uNames (k + 1) net rng = (net1, rng1, Except.error e)) := by
  refine ⟨?_, ?_, ?_⟩
  · intro d ev r hpre hlk
    simp [ConditionalDistribution.sample, hpre, hlk]
  · intro net net2 name blanket rng rng2 obs selfNd n2 cd hfind hgather hfind2 he hs
      hdep hdist hpre hlk
    rcases hrng : rngNext rng2 with ⟨r, rng3⟩
    simp [sample_given_markov_blanket, hfind, hgather, hfind2, Node.sample, he, hs,
      hrng, Node.draw_from_distribution, hdep, hdist,
      ConditionalDistribution.sample, hpre, hlk]
  · intro uNames k net net1 rng rng1 e hstep
    simp [gibbs_loop, hstep]

/-- Witness for C7 at the parentless conditional node `Z`: its empty
observation tuple matches no group of `cdZ`. -/
theorem C7_lookup_error_propagation_witness :
    cdZ.sample [] 0 = Except.error PyError.keyError ∧
    sample_given_markov_blanket netZ "Z" [] [] =
      (netZ, [], Except.error PyError.keyError) ∧
    gibbs_loop ["Z"] 1 netZ [] = (netZ, [], Except.error PyError.keyError) := by
  refine ⟨?_, ?_, ?_⟩
  · exact C7_lookup_error_propagation.1 cdZ [] 0 rfl rfl
  · exact C7_lookup_error_propagation.2.1 netZ netZ "Z" [] [] [] [] ndZ ndZ cdZ
      rfl rfl rfl rfl rfl rfl rfl rfl rfl
  · exact C7_lookup_error_propagation.2.2 ["Z"] 0 netZ netZ [] [] PyError.keyError rfl

/-! ### Claim C3 — Node.sample case analysis -/

/-- C3: `Node.sample` returns the evidence unchanged when evidence is set (no
draw, no counter update); otherwise the static value unchanged when one is
set; otherwise it draws from the node's distribution with the supplied
observations and increments the occurrence counter of exactly the drawn value
by one, returning that value. -/
theorem C3_sample_spec (n : Node) (observations : Option (List String)) (rng : Rng) :
    (∀ e, n.evidence = some e → n.sample observations rng = Except.ok (e, n, rng)) ∧
    (n.evidence = none → ∀ v, n.static_value = some v →
      n.sample observations rng = Except.ok (v, n, rng)) ∧
    (n.evidence = none → n.static_value = none →
      ∀ s n2 rng2, n.sample observations rng = Except.ok (s, n2, rng2) →
        n.draw_from_distribution observations (rngNext rng).1 = Except.ok s ∧
        rng2 = (rngNext rng).2 ∧
        count_of n2.counter s = count_of n.counter s + 1 ∧
        (∀ t, t ≠ s → count_of n2.counter t = count_of n.counter t) ∧
        n2.evidence = n.evidence ∧ n2.static_value = n.static_value ∧
        n2.name = n.name ∧ n2.distribution = n.distribution) := by
  refine ⟨?_, ?_, ?_⟩
  · intro e he
    exact sample_evidence n e observations rng he
  · intro he v hs
    exact sample_static n v observations rng he hs
  · intro he hs s n2 rng2 hok
    rcases hrng : rngNext rng with ⟨r, rng3⟩
    simp only [Node.sample, he, hs, hrng] at hok
    cases hdraw : n.draw_from_distribution observations r with
    | error e => rw [hdraw] at hok; cases hok
    | ok s2 =>
        rw [hdraw] at hok
        simp only [Except.ok.injEq, Prod.mk.injEq] at hok
        obtain ⟨rfl, rfl, rfl⟩ := hok
        simp only [hrng]
        refine ⟨trivial, trivial, count_of_bump_self n.counter s2, ?_, he.symm, hs.symm,
          trivial, trivial⟩
        intro t ht
        exact count_of_bump_ne n.counter s2 t ht

/-- Witness for C3 at the preprocessed unconditional node `A`: the draw
returns `a` and its count goes from 0 to 1. -/
theorem C3_sample_spec_witness :
    nodeAp.sample none [7] =
      Except.ok ("a", { nodeAp with counter := [("a", 1)] }, ([] : Rng)) ∧
    count_of ({ nodeAp with counter := [("a", 1)] } : Node).counter "a" =
      count_of nodeAp.counter "a" + 1 := by
  have hok : nodeAp.sample none [7] =
      Except.ok ("a", { nodeAp with counter := [("a", 1)] }, ([] : Rng)) := rfl
  exact ⟨hok,
    ((C3_sample_spec nodeAp none [7]).2.2 rfl rfl "a"
      { nodeAp with counter := [("a", 1)] } [] hok).2.2.1⟩

/-! ### Claim C2 — gibbs pre-validation -/

/-- C2 counterexample: with evidence `{A: a, X: x}` (`X` unknown) on the
two-node network, `gibbs` raises `KeyError`, but the evidence clamp on `A`
has already been set at that point: the failure does not leave the network in
its prior state. -/
theorem C2_counterexample :
    (gibbs net1 [("A", "a"), ("X", "x")] ["B"] 3 [0, 1, 2]).2 =
      Except.error PyError.keyError ∧
    (findNode (gibbs net1 [("A", "a"), ("X", "x")] ["B"] 3 [0, 1, 2]).1 "A").map
      Node.evidence = some (some "a") ∧
    (findNode net1 "A").map Node.evidence = some none :=
  ⟨rfl, rfl, rfl⟩

/-- C2 (amended): a query/evidence overlap or an unknown query name is
detected before any mutation — `gibbs` returns an error and the network is
unchanged.  An unknown name that occurs only in `evidence` is instead
detected during clamping, after earlier evidence entries were already set
(`C2_counterexample`). -/
theorem C2_prevalidation_no_mutation (net : NetMap) (evidence : List (String × String))
    (query : List String) (n : Nat) (rng : Rng)
    (h : (∃ qn ∈ query, (evidence.find? (fun p => p.1 = qn)).isSome) ∨
         (∃ qn ∈ query, findNode net qn = none)) :
    (gibbs net evidence query n rng).1 = net ∧
    ∃ e, (gibbs net evidence query n rng).2 = Except.error e := by
  by_cases hemp : net.isEmpty
  · simp [gibbs, hemp]
  · by_cases hover : query.any (fun qn => (evidence.find? (fun p => p.1 = qn)).isSome)
    · simp [gibbs, hemp, hover]
    · have hunk : query.any (fun qn => (findNode net qn).isNone) = true := by
        rcases h with ⟨qn, hin, hsome⟩ | ⟨qn, hin, hnone⟩
        · exact absurd (List.any_eq_true.2 ⟨qn, hin, hsome⟩) hover
        · exact List.any_eq_true.2 ⟨qn, hin, by simp [hnone]⟩
      simp [gibbs, hemp, hover, hunk]

/-- Witness for C2 (amended) at a query overlapping the evidence. -/
theorem C2_prevalidation_no_mutation_witness :
    (gibbs net1 [("A", "a")] ["A"] 1 []).1 = net1 ∧
    (gibbs net1 [("A", "a")] ["A"] 1 []).2 = Except.error PyError.valueError :=
  ⟨(C2_prevalidation_no_mutation net1 [("A", "a")] ["A"] 1 []
      (Or.inl ⟨"A", by decide, by decide⟩)).1, rfl⟩

/-! ### Facts about add_child and add_parent -/

theorem add_child_ok (p c p2 : Node) (h : p.add_child c = Except.ok p2) :
    ¬ (c.name = p.name) ∧ p.parents.contains c.name = false ∧
    p2.children.contains c.name = true ∧ p2.parents = p.parents ∧
    p2.name = p.name ∧ p2.distribution = p.distribution ∧
    p2.parents_order = p.parents_order := by
  unfold Node.add_child at h
  by_cases h1 : c.name = p.name
  · rw [if_pos h1] at h; cases h
  · rw [if_neg h1] at h
    by_cases h2 : p.parents.contains c.name = true
    · rw [if_pos h2] at h; cases h
    · rw [if_neg h2] at h
      rw [Bool.not_eq_true] at h2
      by_cases h3 : p.children.contains c.name = true
      · rw [if_pos h3] at h
        injection h with h
        subst h
        exact ⟨h1, h2, h3, rfl, rfl, rfl, rfl⟩
      · rw [if_neg h3] at h
        injection h with h
        subst h
        refine ⟨h1, h2, ?_, rfl, rfl, rfl, rfl⟩
        exact (contains_iff_mem _ _).2 (by simp)

theorem add_parent_ok (c p c2 : Node) (h : c.add_parent p = Except.ok c2) :
    ¬ (p.name = c.name) ∧ (∃ cd, c.distribution = Distribution.conditional cd) ∧
    c.children.contains p.name = false ∧ c.parents.contains p.name = false ∧
    c2.parents.contains p.name = true ∧ c2.children = c.children ∧
    c2.name = c.name ∧ c2.distribution = c.distribution := by
  unfold Node.add_parent at h
  by_cases h1 : p.name = c.name
  · rw [if_pos h1] at h; cases h
  · rw [if_neg h1] at h
    cases hd : c.distribution with
    | discrete dd => rw [hd] at h; cases h
    | conditional cd =>
        rw [hd] at h
        by_cases h2 : c.children.contains p.name = true
        · rw [if_pos h2] at h; cases h
        · rw [if_neg h2] at h
          rw [Bool.not_eq_true] at h2
          by_cases h3 : c.parents.contains p.name = true
          · rw [if_pos h3] at h; cases h
          · rw [if_neg h3] at h
            rw [Bool.not_eq_true] at h3
            injection h with h
            subst h
            refine ⟨h1, ⟨cd, rfl⟩, h2, h3, ?_, rfl, rfl, rfl⟩
            exact (contains_iff_mem _ _).2 (by simp)

theorem add_child_succeeds (p c : Node)
    (h1 : ¬ (c.name = p.name)) (h2 : p.parents.contains c.name = false) :
    ∃ p2, p.add_child c = Except.ok p2 ∧ p2.children.contains c.name = true ∧
      p2.name = p.name ∧ p2.parents = p.parents ∧
      p2.distribution = p.distribution := by
  have h2n : ¬ (p.parents.contains c.name = true) := by rw [h2]; simp
  unfold Node.add_child
  rw [if_neg h1, if_neg h2n]
  by_cases h3 : p.children.contains c.name = true
  · rw [if_pos h3]
    exact ⟨p, rfl, h3, rfl, rfl, rfl⟩
  · rw [if_neg h3]
    refine ⟨_, rfl, ?_, rfl, rfl, rfl⟩
    exact (contains_iff_mem _ _).2 (by simp)

theorem add_parent_discrete (c p : Node) (dd : DiscreteDistribution)
    (h1 : ¬ (p.name = c.name)) (hd : c.distribution = Distribution.discrete dd) :
    c.add_parent p = Except.error PyError.assertionError := by
  unfold Node.add_parent
  rw [if_neg h1, hd]

theorem names_coherent_find (net : NetMap) (k : String) (nd : Node)
    (hc : names_coherent net = true) (h : findNode net k = some nd) :
    nd.name = k := by
  induction net with
  | nil => cases h
  | cons p rest ih =>
      simp only [names_coherent, List.all_cons, Bool.and_eq_true] at hc
      by_cases hk : p.1 = k
      · rw [findNode, if_pos hk] at h
        injection h with h
        have h1 : nd.name = p.1 := by
          rw [← h]
          simpa using hc.1
        exact h1.trans hk
      · rw [findNode, if_neg hk] at h
        exact ih (by simpa [names_coherent] using hc.2) h

/-! ### Claim C9 — reverse and repeated edges fail -/

/-- C9: after a successful `add_edge(p, c)`, the reverse call `add_edge(c, p)`
fails with `ValueError` (the spec's StructuralError — the 2-cycle guard), and
repeating `add_edge(p, c)` also fails with `ValueError` (the parent is
already registered). -/
theorem C9_reverse_and_repeat_edges_fail (net net1 : NetMap) (p c : String)
    (h : add_edge net p c = (net1, Except.ok ())) :
    (add_edge net1 c p).2 = Except.error PyError.valueError ∧
    (add_edge net1 p c).2 = Except.error PyError.valueError := by
  unfold add_edge at h
  obtain ⟨P, hfp⟩ : ∃ P, findNode net p = some P := by
    cases hfp : findNode net p with
    | none => rw [hfp] at h; simp at h
    | some P => exact ⟨P, rfl⟩
  simp only [hfp] at h
  obtain ⟨C, hfc⟩ : ∃ C, findNode net c = some C := by
    cases hfc : findNode net c with
    | none => rw [hfc] at h; simp at h
    | some C => exact ⟨C, rfl⟩
  simp only [hfc] at h
  obtain ⟨P2, hac⟩ : ∃ P2, P.add_child C = Except.ok P2 := by
    cases hac : P.add_child C with
    | error e => rw [hac] at h; simp at h
    | ok P2 => exact ⟨P2, rfl⟩
  simp only [hac] at h
  obtain ⟨C1, hfc1⟩ : ∃ C1, findNode (updateNode net p P2) c = some C1 := by
    cases hfc1 : findNode (updateNode net p P2) c with
    | none => rw [hfc1] at h; simp at h
    | some C1 => exact ⟨C1, rfl⟩
  simp only [hfc1] at h
  obtain ⟨C2, hap⟩ : ∃ C2, C1.add_parent P2 = Except.ok C2 := by
    cases hap : C1.add_parent P2 with
    | error e => rw [hap] at h; simp at h
    | ok C2 => exact ⟨C2, rfl⟩
  simp only [hap] at h
  simp only [Prod.mk.injEq] at h
  obtain ⟨hnet1, -⟩ := h
  obtain ⟨hcn, hpcf, hp2ch, hp2par, hp2name, hp2dist, hp2po⟩ := add_child_ok P C P2 hac
  have hpc : p ≠ c := by
    intro he
    rw [he, hfc] at hfp
    injection hfp with hCP
    exact hcn (by rw [hCP])
  have hC1 : C1 = C := by
    rw [findNode_updateNode_ne net p c P2 hpc, hfc] at hfc1
    injection hfc1 with h2
    exact h2.symm
  subst hC1
  obtain ⟨hpn, ⟨cd, hcd⟩, hcch, hcpar, hc2par, hc2ch, hc2name, hc2dist⟩ :=
    add_parent_ok C1 P2 C2 hap
  subst hnet1
  have hfind1c : findNode (updateNode (updateNode net p P2) c C2) c = some C2 :=
    findNode_updateNode_self _ c C2 (by rw [hfc1]; rfl)
  have hfind1p : findNode (updateNode (updateNode net p P2) c C2) p = some P2 := by
    rw [findNode_updateNode_ne _ c p C2 (Ne.symm hpc)]
    exact findNode_updateNode_self net p P2 (by rw [hfp]; rfl)
  have hname1 : ¬ (P2.name = C2.name) := by
    rw [hc2name]
    exact hpn
  constructor
  · have hstep : C2.add_child P2 = Except.error PyError.valueError := by
      unfold Node.add_child
      rw [if_neg hname1, if_pos hc2par]
    unfold add_edge
    simp only [hfind1c, hfind1p, hstep]
  · have hchild : P2.add_child C2 = Except.ok P2 := by
      unfold Node.add_child
      rw [if_neg (fun hh => hname1 hh.symm)]
      rw [if_neg (by rw [hp2par, hc2name, hpcf]; simp)]
      rw [if_pos (by rw [hc2name]; exact hp2ch)]
    have hf2 : findNode (updateNode (updateNode (updateNode net p P2) c C2) p P2) c =
        some C2 := by
      rw [findNode_updateNode_ne _ p c P2 hpc]
      exact hfind1c
    have hpar : C2.add_parent P2 = Except.error PyError.valueError := by
      unfold Node.add_parent
      rw [if_neg hname1]
      rw [show C2.distribution = Distribution.conditional cd from hc2dist.trans hcd]
      rw [if_neg (by rw [hc2ch, hcch]; simp)]
      rw [if_pos hc2par]
    unfold add_edge
    simp only [hfind1p, hfind1c, hchild, hf2, hpar]

/-- Witness for C9 on the two-node network `A → CC`. -/
theorem C9_reverse_and_repeat_edges_fail_witness :
    (add_edge (add_edge netF0 "A" "CC").1 "CC" "A").2 =
      Except.error PyError.valueError ∧
    (add_edge (add_edge netF0 "A" "CC").1 "A" "CC").2 =
      Except.error PyError.valueError :=
  C9_reverse_and_repeat_edges_fail netF0 (add_edge netF0 "A" "CC").1 "A" "CC" rfl

/-! ### Claim C4 — link consistency of add_edge -/

/-- C4 counterexample: `add_edge(A, B)` with unconditional `B` fails
(`AssertionError` from `add_parent`), yet `B` has already been added to `A`'s
children while `B`'s parents stay empty — a half-edge remains. -/
theorem C4_counterexample :
    (add_edge net1 "A" "B").2 = Except.error PyError.assertionError ∧
    (findNode (add_edge net1 "A" "B").1 "A").map Node.children = some ["B"] ∧
    (findNode (add_edge net1 "A" "B").1 "B").map Node.parents = some [] :=
  ⟨rfl, rfl, rfl⟩

/-- C4 (amended): after a *successful* `add_edge(p, c)` both link directions
are present (`c` among `p`'s children and `p` among `c`'s parents); a call
that fails inside `add_child` (e.g. the 2-cycle guard) leaves no half-edge —
the network is returned entirely unchanged; but a call that fails in
`add_parent` after `add_child` has succeeded — e.g. because the child's
distribution is unconditional — leaves a half-edge: `c` stays among `p`'s
children with no reverse link on `c`. -/
theorem C4_add_edge_links :
    (∀ (net net2 : NetMap) (p c : String),
        add_edge net p c = (net2, Except.ok ()) → names_coherent net = true →
        ∃ P2 C2, findNode net2 p = some P2 ∧ findNode net2 c = some C2 ∧
          P2.children.contains c = true ∧ C2.parents.contains p = true) ∧
    (∀ (net : NetMap) (p c : String) (P C : Node) (e : PyError),
        findNode net p = some P → findNode net c = some C →
        P.add_child C = Except.error e →
        add_edge net p c = (net, Except.error e)) ∧
    (∀ (net : NetMap) (p c : String) (P C : Node) (dd : DiscreteDistribution),
        findNode net p = some P → findNode net c = some C →
        P.name = p → C.name = c → p ≠ c →
        C.distribution = Distribution.discrete dd →
        P.parents.contains c = false → C.parents.contains p = false →
        (add_edge net p c).2 = Except.error PyError.assertionError ∧
        ∃ P2, findNode (add_edge net p c).1 p = some P2 ∧
          P2.children.contains c = true ∧
          findNode (add_edge net p c).1 c = some C ∧
          C.parents.contains p = false) := by
  refine ⟨?_, ?_, ?_⟩
  · intro net net2 p c h hco
    unfold add_edge at h
    obtain ⟨P, hfp⟩ : ∃ P, findNode net p = some P := by
      cases hfp : findNode net p with
      | none => rw [hfp] at h; simp at h
      | some P => exact ⟨P, rfl⟩
    simp only [hfp] at h
    obtain ⟨C, hfc⟩ : ∃ C, findNode net c = some C := by
      cases hfc : findNode net c with
      | none => rw [hfc] at h; simp at h
      | some C => exact ⟨C, rfl⟩
    simp only [hfc] at h
    obtain ⟨P2, hac⟩ : ∃ P2, P.add_child C = Except.ok P2 := by
      cases hac : P.add_child C with
      | error e => rw [hac] at h; simp at h
      | ok P2 => exact ⟨P2, rfl⟩
    simp only [hac] at h
    obtain ⟨C1, hfc1⟩ : ∃ C1, findNode (updateNode net p P2) c = some C1 := by
      cases hfc1 : findNode (updateNode net p P2) c with
      | none => rw [hfc1] at h; simp at h
      | some C1 => exact ⟨C1, rfl⟩
    simp only [hfc1] at h
    obtain ⟨C2, hap⟩ : ∃ C2, C1.add_parent P2 = Except.ok C2 := by
      cases hap : C1.add_parent P2 with
      | error e => rw [hap] at h; simp at h
      | ok C2 => exact ⟨C2, rfl⟩
    simp only [hap, Prod.mk.injEq] at h
    obtain ⟨hnet2, -⟩ := h
    obtain ⟨hcn, hpcf, hp2ch, hp2par, hp2name, hp2dist, hp2po⟩ := add_child_ok P C P2 hac
    have hpc : p ≠ c := by
      intro he
      rw [he, hfc] at hfp
      injection hfp with hCP
      exact hcn (by rw [hCP])
    have hC1 : C1 = C := by
      rw [findNode_updateNode_ne net p c P2 hpc, hfc] at hfc1
      injection hfc1 with h2
      exact h2.symm
    subst hC1
    obtain ⟨hpn, ⟨cd, hcd⟩, hcch, hcpar, hc2par, hc2ch, hc2name, hc2dist⟩ :=
      add_parent_ok C1 P2 C2 hap
    subst hnet2
    refine ⟨P2, C2, ?_, ?_, ?_, ?_⟩
    · rw [findNode_updateNode_ne _ c p C2 (Ne.symm hpc)]
      exact findNode_updateNode_self net p P2 (by rw [hfp]; rfl)
    · exact findNode_updateNode_self _ c C2 (by rw [hfc1]; rfl)
    · rw [← names_coherent_find net c C1 hco hfc]
      exact hp2ch
    · rw [← names_coherent_find net p P hco hfp, ← hp2name]
      exact hc2par
  · intro net p c P C e hfp hfc hac
    unfold add_edge
    simp only [hfp, hfc, hac]
  · intro net p c P C dd hfp hfc hPname hCname hpc hCdist hPpar hCpar
    have hcn : ¬ (C.name = P.name) := by
      rw [hCname, hPname]
      exact fun hh => hpc hh.symm
    have hacs := add_child_succeeds P C hcn (by rw [hCname]; exact hPpar)
    obtain ⟨P2, hac, hp2ch, hp2name, hp2par, hp2dist⟩ := hacs
    have hfc1 : findNode (updateNode net p P2) c = some C := by
      rw [findNode_updateNode_ne net p c P2 hpc]
      exact hfc
    have hapf : C.add_parent P2 = Except.error PyError.assertionError :=
      add_parent_discrete C P2 dd (by rw [hp2name, hPname, hCname]; exact hpc) hCdist
    have heval : add_edge net p c =
        (updateNode net p P2, Except.error PyError.assertionError) := by
      unfold add_edge
      simp only [hfp, hfc, hac, hfc1, hapf]
    rw [heval]
    refine ⟨rfl, P2, ?_, ?_, ?_, hCpar⟩
    · exact findNode_updateNode_self net p P2 (by rw [hfp]; rfl)
    · rw [← hCname]
      exact hp2ch
    · exact hfc1

/-- Witness for C4: on the network `A → CC`, a successful edge leaves both
links; on the same network the reverse call fails inside `add_child` (2-cycle
guard) leaving the network unchanged; and on the preprocessed two-node
network, `add_edge(A, B)` with unconditional `B` hits the half-edge case. -/
theorem C4_add_edge_links_witness :
    ((findNode (add_edge netF0 "A" "CC").1 "A").getD nodeA).children.contains "CC"
      = true ∧
    add_edge (add_edge netF0 "A" "CC").1 "CC" "A" =
      ((add_edge netF0 "A" "CC").1, Except.error PyError.valueError) ∧
    (add_edge net1 "A" "B").2 = Except.error PyError.assertionError := by
  refine ⟨?_, ?_, ?_⟩
  · obtain ⟨P2, C2, hfp, hfc, hpc, hcp⟩ :=
      C4_add_edge_links.1 netF0 (add_edge netF0 "A" "CC").1 "A" "CC" rfl (by decide)
    simp only [hfp, Option.getD_some]
    exact hpc
  · exact C4_add_edge_links.2.1 (add_edge netF0 "A" "CC").1 "CC" "A"
      ((findNode (add_edge netF0 "A" "CC").1 "CC").getD nodeCC)
      ((findNode (add_edge netF0 "A" "CC").1 "A").getD nodeA)
      PyError.valueError rfl rfl rfl
  · exact (C4_add_edge_links.2.2 net1 "A" "B" nodeAp nodeBp dBp rfl rfl rfl rfl
      (by decide) rfl rfl rfl).1

/-! ### Claim C1 — the parent-order check is inoperative -/

/-- C1 (code bug): the parent-order validation in `Node.preprocess` neither
detects an inconsistent order nor accepts a consistent one.  On `netC2` the
two-parent conditional node `C` has its registered order swapped against the
table columns, yet `preprocess` succeeds — the generator
`get_dependencies_possible_values` iterates `range(num_of_dependencies - 2)`,
which is empty for two parent columns, so the check never runs.  On `netD3`
the three-parent node `C3` is registered consistently with its table, yet
`preprocess` raises `TypeError` — the check calls `is_value_possible()`
without its value argument as soon as it runs at all.  The documented
StructuralError is unreachable. -/
theorem C1_parent_order_check_broken :
    ((net_preprocess netC2).2 = Except.ok () ∧
      parents_order_consistent netC2 ndC2 = false) ∧
    ((net_preprocess netD3).2 = Except.error PyError.typeError ∧
      parents_order_consistent netD3 ndC3r = true) := by
  refine ⟨⟨?_, by decide⟩, ?_, by decide⟩
  · simp [net_preprocess, net_preprocess_go, netC2, netC1, netC0, nodeP1, nodeP2, nodeC,
      Node.init, add_edge, add_nodes, findNode, updateNode, Node.add_child,
      Node.add_parent, dict_insert, Node.preprocess, coparents_fold,
      Distribution.preprocess, DiscreteDistribution.preprocess,
      ConditionalDistribution.preprocess, ConditionalDistribution.possible_evidences,
      build_lookup, get_possible_values_and_weight_for_evidence, cdistC,
      ConditionalDistribution.init, order_check_go, inner_order_check,
      ConditionalDistribution.get_dependencies_possible_values,
      Distribution.isConditional]
  · simp [net_preprocess, net_preprocess_go, netD3, netD2, netD1, netD0, nodeP1, nodeP2,
      nodeP3, nodeC3, Node.init, add_edge, add_nodes, findNode, updateNode,
      Node.add_child, Node.add_parent, dict_insert, Node.preprocess, coparents_fold,
      Distribution.preprocess, DiscreteDistribution.preprocess,
      ConditionalDistribution.preprocess, ConditionalDistribution.possible_evidences,
      build_lookup, get_possible_values_and_weight_for_evidence, cdistC3,
      ConditionalDistribution.init, order_check_go, inner_order_check,
      ConditionalDistribution.get_dependencies_possible_values,
      Distribution.isConditional]

/-! ### Reset / seeding lemmas (Claim C10) -/

theorem reset_all_isEmpty (net : NetMap) :
    (reset_all_counters net).isEmpty = net.isEmpty := by
  cases net <;> rfl

theorem findNode_reset_all (net : NetMap) (k : String) :
    findNode (reset_all_counters net) k = (findNode net k).map Node.reset_counters := by
  induction net with
  | nil => simp [reset_all_counters, findNode]
  | cons p rest ih =>
      by_cases hk : p.1 = k
      · simp [reset_all_counters, findNode, hk]
      · simp only [reset_all_counters, List.map_cons, findNode, hk, if_neg,
          not_false_iff]
        simpa [reset_all_counters] using ih

theorem reset_all_idem (net : NetMap) :
    reset_all_counters (reset_all_counters net) = reset_all_counters net := by
  unfold reset_all_counters
  rw [List.map_map]
  rfl

theorem updateNode_reset_all (net : NetMap) (k : String) (nd : Node) :
    reset_all_counters (updateNode net k nd) =
      updateNode (reset_all_counters net) k nd.reset_counters := by
  induction net with
  | nil => rfl
  | cons p rest ih =>
      by_cases hk : p.1 = k
      · simp only [updateNode, reset_all_counters, List.map_cons, hk, if_pos]
        refine congrArg _ ?_
        simpa [reset_all_counters] using ih
      · simp only [updateNode, reset_all_counters, List.map_cons, hk, if_neg,
          not_false_iff]
        refine congrArg _ ?_
        simpa [reset_all_counters] using ih

theorem set_evidence_reset (nd : Node) (v : String) :
    (Node.reset_counters nd).set_evidence v =
      match nd.set_evidence v with
      | Except.ok nd2 => Except.ok nd2.reset_counters
      | Except.error e => Except.error e := by
  unfold Node.set_evidence Node.reset_counters
  cases hvp : nd.distribution.is_value_possible v with
  | error e => rfl
  | ok b => cases b <;> rfl

theorem set_evidences_reset_all (evidence : List (String × String)) :
    ∀ net, set_evidences (reset_all_counters net) evidence =
      (reset_all_counters (set_evidences net evidence).1,
       (set_evidences net evidence).2) := by
  induction evidence with
  | nil => intro net; rfl
  | cons pr rest ih =>
      intro net
      rcases pr with ⟨name, state⟩
      unfold set_evidences
      cases hf : findNode net name with
      | none =>
          have hf2 : findNode (reset_all_counters net) name = none := by
            rw [findNode_reset_all, hf]
            rfl
          simp [hf, hf2]
      | some nd =>
          have hf2 : findNode (reset_all_counters net) name =
              some nd.reset_counters := by
            rw [findNode_reset_all, hf]
            rfl
          simp only [hf, hf2, set_evidence_reset]
          cases hse : nd.set_evidence state with
          | error e => simp only [hse]
          | ok nd2 =>
              simp only [hse]
              rw [← updateNode_reset_all]
              exact ih (updateNode net name nd2)

theorem set_random_initial_value_fields (n n2 : Node) (rng rng2 : Rng)
    (h : n.set_random_initial_value rng = Except.ok (n2, rng2)) :
    n2.counter = n.counter ∧ n2.evidence = n.evidence ∧
    n2.static_value.isSome = true := by
  unfold Node.set_random_initial_value at h
  rcases hrng : rngNext rng with ⟨r, rng3⟩
  simp only [hrng] at h
  cases hget : n.distribution.get_random_value r with
  | error e => rw [hget] at h; cases h
  | ok v =>
      rw [hget] at h
      injection h with h
      rw [Prod.mk.injEq] at h
      obtain ⟨h1, -⟩ := h
      rw [← h1]
      exact ⟨rfl, rfl, rfl⟩

theorem set_random_initial_values_counters (names : List String) :
    ∀ net net2 rng rng2 r,
      set_random_initial_values net names rng = (net2, rng2, r) →
      ∀ k, (findNode net2 k).map Node.counter = (findNode net k).map Node.counter := by
  induction names with
  | nil =>
      intro net net2 rng rng2 r h k
      unfold set_random_initial_values at h
      rw [Prod.mk.injEq] at h
      rw [h.1]
  | cons name rest ih =>
      intro net net2 rng rng2 r h k
      unfold set_random_initial_values at h
      cases hf : findNode net name with
      | none =>
          simp only [hf] at h
          rw [Prod.mk.injEq] at h
          rw [h.1]
      | some nd =>
          simp only [hf] at h
          cases hsr : nd.set_random_initial_value rng with
          | error e =>
              simp only [hsr] at h
              rw [Prod.mk.injEq] at h
              rw [h.1]
          | ok pr =>
              rcases pr with ⟨nd2, rng3⟩
              simp only [hsr] at h
              have hrec := ih (updateNode net name nd2) net2 rng3 rng2 r h k
              rw [hrec]
              by_cases hk : name = k
              · subst hk
                rw [findNode_updateNode_self net name nd2 (by rw [hf]; rfl), hf]
                obtain ⟨hc, -, -⟩ := set_random_initial_value_fields nd nd2 rng rng3 hsr
                simp [hc]
              · rw [findNode_updateNode_ne net name k nd2 hk]

/-! ### Claim C10 — zero iterations and counter reset -/

/-- C10: a successful `gibbs(evidence, query, 0)` leaves every node's
occurrence counter empty and returns `None` for every query name (no draw
happened); and more generally the result of a `gibbs` call is insensitive to
counters left over from earlier runs, because every call resets them before
sampling. -/
theorem C10_zero_iterations_and_reset :
    (∀ (net net2 : NetMap) (evidence : List (String × String)) (query : List String)
        (rng : Rng) (res : List (String × Option (List (String × ℚ)))),
        gibbs net evidence query 0 rng = (net2, Except.ok res) →
        res = query.map (fun qn => (qn, none)) ∧
        ∀ k nd, findNode net2 k = some nd → nd.counter = []) ∧
    (∀ (net : NetMap) (evidence : List (String × String)) (query : List String)
        (n : Nat) (rng : Rng),
        (gibbs (reset_all_counters net) evidence query n rng).2 =
          (gibbs net evidence query n rng).2) := by
  constructor
  · intro net net2 evidence query rng res h
    unfold gibbs at h
    by_cases hemp : net.isEmpty = true
    · rw [if_pos hemp] at h; simp at h
    · rw [if_neg hemp] at h
      by_cases hov :
          query.any (fun qn => (evidence.find? (fun p => p.1 = qn)).isSome) = true
      · rw [if_pos hov] at h; simp at h
      · rw [if_neg hov] at h
        by_cases hunk : query.any (fun qn => (findNode net qn).isNone) = true
        · rw [if_pos hunk] at h; simp at h
        · rw [if_neg hunk] at h
          rcases hse : set_evidences net evidence with ⟨net1, rse⟩
          cases rse with
          | error e => simp only [hse] at h; simp at h
          | ok u =>
              simp only [hse] at h
              by_cases hu :
                  (nodes_without_evidence (reset_all_counters net1) evidence).isEmpty
                    = true
              · rw [if_pos hu] at h; simp at h
              · rw [if_neg hu] at h
                rcases hseed : set_random_initial_values (reset_all_counters net1)
                    (nodes_without_evidence (reset_all_counters net1) evidence) rng
                  with ⟨net3, rng1, rs⟩
                cases rs with
                | error e => simp only [hseed] at h; simp at h
                | ok u2 =>
                    simp only [hseed, gibbs_loop] at h
                    simp only [Prod.mk.injEq, Except.ok.injEq] at h
                    obtain ⟨hnet2, hres⟩ := h
                    have hcnt := set_random_initial_values_counters
                      (nodes_without_evidence (reset_all_counters net1) evidence)
                      (reset_all_counters net1) net3 rng rng1 (Except.ok u2) hseed
                    have hzero : ∀ k nd, findNode net3 k = some nd → nd.counter = [] := by
                      intro k nd hk
                      have hck := hcnt k
                      rw [hk, findNode_reset_all] at hck
                      cases hf1 : findNode net1 k with
                      | none => rw [hf1] at hck; simp at hck
                      | some m =>
                          rw [hf1] at hck
                          simp [Node.reset_counters] at hck
                          exact hck
                    constructor
                    · rw [← hres]
                      refine congrArg query.map (funext fun qn => ?_)
                      cases hh : findNode net3 qn with
                      | none => rfl
                      | some nd =>
                          simp [hh, Node.get_prob, hzero qn nd hh]
                    · rw [← hnet2]
                      exact hzero
  · intro net evidence query n rng
    unfold gibbs
    simp only [reset_all_isEmpty]
    by_cases hemp : net.isEmpty = true
    · rw [if_pos hemp, if_pos hemp]
    · rw [if_neg hemp, if_neg hemp]
      by_cases hov :
          query.any (fun qn => (evidence.find? (fun p => p.1 = qn)).isSome) = true
      · rw [if_pos hov, if_pos hov]
      · rw [if_neg hov, if_neg hov]
        have hq : (fun qn => (findNode (reset_all_counters net) qn).isNone) =
            (fun qn => (findNode net qn).isNone) := by
          refine funext fun qn => ?_
          rw [findNode_reset_all]
          cases findNode net qn <;> rfl
        simp only [hq]
        by_cases hunk : query.any (fun qn => (findNode net qn).isNone) = true
        · rw [if_pos hunk, if_pos hunk]
        · rw [if_neg hunk, if_neg hunk]
          rcases hse : set_evidences net evidence with ⟨net1, rse⟩
          have hseL : set_evidences (reset_all_counters net) evidence =
              (reset_all_counters net1, rse) := by
            rw [set_evidences_reset_all, hse]
          cases rse with
          | error e => simp only [hse, hseL]
          | ok u => simp only [hse, hseL, reset_all_idem]

/-- Witness for C10 on the two-node network: after `gibbs` with 0 iterations
the query node's counter is empty, and pre-resetting counters does not change
the result. -/
theorem C10_zero_iterations_and_reset_witness :
    ((findNode (gibbs net1 [("A", "a")] ["B"] 0 [0]).1 "B").getD nodeB).counter = [] ∧
    (gibbs (reset_all_counters net1) [("A", "a")] ["B"] 0 [0]).2 =
      (gibbs net1 [("A", "a")] ["B"] 0 [0]).2 := by
  constructor
  · exact (C10_zero_iterations_and_reset.1 net1 (gibbs net1 [("A", "a")] ["B"] 0 [0]).1
      [("A", "a")] ["B"] [0] [("B", none)] rfl).2 "B"
      ((findNode (gibbs net1 [("A", "a")] ["B"] 0 [0]).1 "B").getD nodeB) rfl
  · exact C10_zero_iterations_and_reset.2 net1 [("A", "a")] ["B"] 0 [0]

/-! ### Markov blanket lemmas (Claim C8) -/

theorem coparents_inner_mem (s : String) (parents : List String) :
    ∀ acc x, (x ∈ parents.foldl
        (fun acc2 pname => if pname = s then acc2 else dict_insert acc2 pname) acc ↔
      x ∈ acc ∨ (x ∈ parents ∧ x ≠ s)) := by
  induction parents with
  | nil => intro acc x; simp
  | cons p rest ih =>
      intro acc x
      simp only [List.foldl_cons]
      by_cases hp : p = s
      · rw [if_pos hp]
        rw [ih]
        subst hp
        simp only [List.mem_cons]
        constructor
        · rintro (h | ⟨hm, hne⟩)
          · exact Or.inl h
          · exact Or.inr ⟨Or.inr hm, hne⟩
        · rintro (h | ⟨hm | hm, hne⟩)
          · exact Or.inl h
          · exact absurd hm hne
          · exact Or.inr ⟨hm, hne⟩
      · rw [if_neg hp]
        rw [ih, dict_insert_mem]
        simp only [List.mem_cons]
        constructor
        · rintro ((h | rfl) | ⟨hm, hne⟩)
          · exact Or.inl h
          · exact Or.inr ⟨Or.inl rfl, hp⟩
          · exact Or.inr ⟨Or.inr hm, hne⟩
        · rintro (h | ⟨rfl | hm, hne⟩)
          · exact Or.inl (Or.inl h)
          · exact Or.inl (Or.inr rfl)
          · exact Or.inr ⟨hm, hne⟩

theorem coparents_fold_mem (net : NetMap) (s : String) (children : List String) :
    ∀ mb x, (x ∈ coparents_fold net s mb children ↔
      x ∈ mb ∨ ∃ cname ∈ children, ∃ c, findNode net cname = some c ∧
        x ∈ c.parents ∧ x ≠ s) := by
  induction children with
  | nil => intro mb x; simp [coparents_fold]
  | cons cname rest ih =>
      intro mb x
      have hstep : coparents_fold net s mb (cname :: rest) =
          coparents_fold net s
            (match findNode net cname with
             | some c => c.parents.foldl
                 (fun acc2 pname => if pname = s then acc2 else dict_insert acc2 pname) mb
             | none => mb) rest := rfl
      rw [hstep]
      cases hc : findNode net cname with
      | none =>
          rw [ih]
          simp only [List.exists_mem_cons_iff, hc]
          constructor
          · rintro (h | h)
            · exact Or.inl h
            · exact Or.inr (Or.inr h)
          · rintro (h | ⟨c, hcc, -⟩ | h)
            · exact Or.inl h
            · cases hcc
            · exact Or.inr h
      | some c =>
          rw [ih, coparents_inner_mem]
          simp only [List.exists_mem_cons_iff, hc]
          constructor
          · rintro ((h | h) | h)
            · exact Or.inl h
            · exact Or.inr (Or.inl ⟨c, rfl, h.1, h.2⟩)
            · exact Or.inr (Or.inr h)
          · rintro (h | ⟨c2, hcc, hp, hne⟩ | h)
            · exact Or.inl (Or.inl h)
            · injection hcc with hcc
              subst hcc
              exact Or.inl (Or.inr ⟨hp, hne⟩)
            · exact Or.inr h

theorem preprocess_ok_fields (net : NetMap) (n n2 : Node)
    (h : n.preprocess net = Except.ok n2) :
    n2.markov_blanket = coparents_fold net n.name n.markov_blanket n.children ∧
    n2.parents = n.parents ∧ n2.children = n.children ∧ n2.name = n.name := by
  unfold Node.preprocess at h
  cases hd : n.distribution.preprocess with
  | error e => simp only [hd] at h; cases h
  | ok dist2 =>
      simp only [hd] at h
      cases dist2 with
      | discrete d =>
          injection h with h
          rw [← h]
          exact ⟨rfl, rfl, rfl, rfl⟩
      | conditional cd =>
          cases hoc : order_check_go n cd.get_dependencies_possible_values with
          | error e => simp only [hoc] at h; cases h
          | ok u =>
              simp only [hoc] at h
              injection h with h
              rw [← h]
              exact ⟨rfl, rfl, rfl, rfl⟩

theorem node_wf_iff (n : Node) (h : node_wf n = true) :
    (∀ x, x ∈ n.markov_blanket ↔ x ∈ n.parents ∨ x ∈ n.children) ∧
    n.name ∉ n.parents ∧ n.name ∉ n.children := by
  unfold node_wf at h
  simp only [Bool.and_eq_true, List.all_eq_true, Bool.or_eq_true,
    Bool.not_eq_true'] at h
  obtain ⟨⟨⟨⟨h1, h2⟩, h3⟩, h4⟩, h5⟩ := h
  refine ⟨fun x => ⟨fun hx => ?_, fun hx => ?_⟩, ?_, ?_⟩
  · rcases h1 x hx with hc | hc
    · exact Or.inl ((contains_iff_mem _ _).1 hc)
    · exact Or.inr ((contains_iff_mem _ _).1 hc)
  · rcases hx with hc | hc
    · exact (contains_iff_mem _ _).1 (h2 x hc)
    · exact (contains_iff_mem _ _).1 (h3 x hc)
  · intro hm
    rw [(contains_iff_mem _ _).2 hm] at h4
    cases h4
  · intro hm
    rw [(contains_iff_mem _ _).2 hm] at h5
    cases h5

/-! ### Claim C8 — the Markov blanket after preprocessing -/

/-- C8: for a node satisfying the structural invariant of the Network API
(`node_wf`), a successful `Node.preprocess` produces a Markov blanket holding
exactly the node's parents, its children, and every other parent of each of
its children — and never the node itself. -/
theorem C8_markov_blanket_exact (net : NetMap) (n n2 : Node)
    (hwf : node_wf n = true) (h : n.preprocess net = Except.ok n2) :
    (∀ x, x ∈ n2.markov_blanket ↔
        x ∈ n.parents ∨ x ∈ n.children ∨
        ∃ cname ∈ n.children, ∃ c, findNode net cname = some c ∧
          x ∈ c.parents ∧ x ≠ n.name) ∧
    n.name ∉ n2.markov_blanket := by
  obtain ⟨hmb, hp2, hc2, hn2⟩ := preprocess_ok_fields net n n2 h
  obtain ⟨hbl, hnp, hnc⟩ := node_wf_iff n hwf
  constructor
  · intro x
    rw [hmb, coparents_fold_mem, hbl]
    tauto
  · rw [hmb, coparents_fold_mem]
    rintro (hin | ⟨cname, hcn, c, hfc, hpp, hne⟩)
    · rcases (hbl n.name).1 hin with hh | hh
      · exact hnp hh
      · exact hnc hh
    · exact hne rfl

/-- Witness for C8 at node `X` of the three-node network `X → Y ← W`:
the co-parent `W` enters `X`'s blanket and `X` itself never does. -/
theorem C8_markov_blanket_exact_witness :
    node_wf ndX2 = true ∧
    "W" ∈ ((ndX2.preprocess netG2).toOption.getD nodeX).markov_blanket ∧
    ndX2.name ∉ ((ndX2.preprocess netG2).toOption.getD nodeX).markov_blanket := by
  have h : ndX2.preprocess netG2 =
      Except.ok ((ndX2.preprocess netG2).toOption.getD nodeX) := rfl
  have hmain := C8_markov_blanket_exact netG2 ndX2
    ((ndX2.preprocess netG2).toOption.getD nodeX) (by decide) h
  refine ⟨by decide, ?_, hmain.2⟩
  exact (hmain.1 "W").2 (Or.inr (Or.inr
    ⟨"Y", by decide, (findNode netG2 "Y").getD nodeY, rfl, by decide, by decide⟩))

/-! ### Frame lemmas for stale evidence (Claim C5) -/

theorem set_static_value_fields (n n2 : Node) (v2 : String)
    (h : n.set_static_value v2 = Except.ok n2) :
    n2.evidence = n.evidence ∧ n2.counter = n.counter ∧
    n2.static_value = some v2 := by
  unfold Node.set_static_value at h
  cases hvp : n.distribution.is_value_possible v2 with
  | error e => simp only [hvp] at h; cases h
  | ok b =>
      cases b with
      | false => simp only [hvp] at h; cases h
      | true =>
          simp only [hvp] at h
          injection h with h
          rw [← h]
          exact ⟨rfl, rfl, rfl⟩

theorem sample_update_preserves (X v : String) (m : NetMap) (pname : String)
    (p p2 : Node) (obs : Option (List String)) (s : String) (rng rng3 : Rng)
    (hyp : ∀ nd, findNode m X = some nd → nd.evidence = some v)
    (hf : findNode m pname = some p)
    (hs : p.sample obs rng = Except.ok (s, p2, rng3)) :
    findNode (updateNode m pname p2) X = findNode m X := by
  by_cases hX : pname = X
  · subst hX
    have hpev : p.evidence = some v := hyp p hf
    rw [sample_evidence p v obs rng hpev] at hs
    injection hs with hs
    rw [Prod.mk.injEq] at hs
    obtain ⟨-, hs2⟩ := hs
    rw [Prod.mk.injEq] at hs2
    obtain ⟨hp2, -⟩ := hs2
    rw [← hp2]
    rw [findNode_updateNode_self m pname p (by rw [hf]; rfl), hf]
  · exact findNode_updateNode_ne m pname X p2 hX

theorem gather_observations_preserves (X v : String) (blanket : List String) :
    ∀ (names : List String) (m m2 : NetMap) (rng rng2 : Rng)
      (r : Except PyError (List String)),
      (∀ nd, findNode m X = some nd → nd.evidence = some v) →
      gather_observations blanket m names rng = (m2, rng2, r) →
      findNode m2 X = findNode m X := by
  intro names
  induction names with
  | nil =>
      intro m m2 rng rng2 r hyp h
      unfold gather_observations at h
      rw [Prod.mk.injEq] at h
      rw [h.1]
  | cons pname rest ih =>
      intro m m2 rng rng2 r hyp h
      unfold gather_observations at h
      by_cases hb : blanket.contains pname = false
      · rw [if_pos hb] at h
        rw [Prod.mk.injEq] at h
        rw [h.1]
      · rw [if_neg hb] at h
        cases hf : findNode m pname with
        | none =>
            simp only [hf] at h
            rw [Prod.mk.injEq] at h
            rw [h.1]
        | some p =>
            simp only [hf] at h
            cases hs : p.sample none rng with
            | error e =>
                simp only [hs] at h
                rw [Prod.mk.injEq] at h
                rw [h.1]
            | ok tr =>
                rcases tr with ⟨s, p2, rng3⟩
                simp only [hs] at h
                rcases hg : gather_observations blanket (updateNode m pname p2) rest rng3
                  with ⟨mg, rngg, rg⟩
                have hone : findNode (updateNode m pname p2) X = findNode m X :=
                  sample_update_preserves X v m pname p p2 none s rng rng3 hyp hf hs
                have hm2 : m2 = mg := by
                  cases rg with
                  | ok obs =>
                      simp only [hg] at h
                      rw [Prod.mk.injEq] at h
                      exact h.1.symm
                  | error e =>
                      simp only [hg] at h
                      rw [Prod.mk.injEq] at h
                      exact h.1.symm
                rw [hm2]
                have hrec := ih (updateNode m pname p2) mg rng3 rngg rg
                  (by rw [hone]; exact hyp) hg
                rw [hrec, hone]

theorem sample_given_preserves (X v : String) (m m2 : NetMap) (name : String)
    (blanket : List String) (rng rng2 : Rng) (r : Except PyError String)
    (hyp : ∀ nd, findNode m X = some nd → nd.evidence = some v)
    (h : sample_given_markov_blanket m name blanket rng = (m2, rng2, r)) :
    findNode m2 X = findNode m X := by
  unfold sample_given_markov_blanket at h
  cases hf : findNode m name with
  | none =>
      simp only [hf] at h
      rw [Prod.mk.injEq] at h
      rw [h.1]
  | some selfNd =>
      simp only [hf] at h
      rcases hg : gather_observations blanket m selfNd.parents_order rng
        with ⟨mg, rngg, rg⟩
      have hgpres : findNode mg X = findNode m X :=
        gather_observations_preserves X v blanket selfNd.parents_order m mg rng rngg
          rg hyp hg
      cases rg with
      | error e =>
          simp only [hg] at h
          rw [Prod.mk.injEq] at h
          rw [← h.1, hgpres]
      | ok obs =>
          simp only [hg] at h
          cases hf2 : findNode mg name with
          | none =>
              simp only [hf2] at h
              rw [Prod.mk.injEq] at h
              rw [← h.1, hgpres]
          | some selfNd2 =>
              simp only [hf2] at h
              cases hs : selfNd2.sample (some obs) rngg with
              | error e =>
                  simp only [hs] at h
                  rw [Prod.mk.injEq] at h
                  rw [← h.1, hgpres]
              | ok tr =>
                  rcases tr with ⟨s, nd3, rng3⟩
                  simp only [hs] at h
                  rw [Prod.mk.injEq] at h
                  rw [← h.1]
                  have hone : findNode (updateNode mg name nd3) X = findNode mg X :=
                    sample_update_preserves X v mg name selfNd2 nd3 (some obs) s rngg
                      rng3 (by rw [hgpres]; exact hyp) hf2 hs
                  rw [hone, hgpres]

theorem gibbs_step_preserves_clamped (X v : String) (uNames : List String)
    (m m2 : NetMap) (rng rng2 : Rng)
    (h : gibbs_step uNames m rng = (m2, rng2, Except.ok ()))
    (hQ : evidence_clamped m X v) : evidence_clamped m2 X v := by
  obtain ⟨ndX, hfX, hevX, hcX, hsX⟩ := hQ
  have hyp : ∀ nd, findNode m X = some nd → nd.evidence = some v := by
    intro nd hnd
    rw [hfX] at hnd
    injection hnd with hnd
    rw [← hnd]
    exact hevX
  unfold gibbs_step at h
  rcases hrng : rngNext rng with ⟨rr, rng1⟩
  simp only [hrng] at h
  cases hf : findNode m (uNames.getD (rr % uNames.length) "") with
  | none => simp only [hf] at h; simp at h
  | some nd =>
      simp only [hf] at h
      rcases hsg : sample_given_markov_blanket
          (updateNode m (uNames.getD (rr % uNames.length) "") nd.set_non_static)
          (uNames.getD (rr % uNames.length) "") nd.set_non_static.markov_blanket rng1
        with ⟨ms, rngs, rs⟩
      cases rs with
      | error e => simp only [hsg] at h; simp at h
      | ok value =>
          simp only [hsg] at h
          cases hf2 : findNode ms (uNames.getD (rr % uNames.length) "") with
          | none => simp only [hf2] at h; simp at h
          | some nd2 =>
              simp only [hf2] at h
              cases hset : nd2.set_static_value value with
              | error e => simp only [hset] at h; simp at h
              | ok nd3 =>
                  simp only [hset] at h
                  rw [Prod.mk.injEq] at h
                  obtain ⟨hm2, -⟩ := h
                  by_cases hwX : uNames.getD (rr % uNames.length) "" = X
                  · rw [hwX] at hf hsg hf2 hm2
                    rw [hfX] at hf
                    injection hf with hf
                    subst hf
                    have hf1 : findNode (updateNode m X ndX.set_non_static) X =
                        some ndX.set_non_static :=
                      findNode_updateNode_self m X ndX.set_non_static
                        (by rw [hfX]; rfl)
                    have hyp1 : ∀ nd', findNode (updateNode m X ndX.set_non_static) X =
                        some nd' → nd'.evidence = some v := by
                      intro nd' hnd'
                      rw [hf1] at hnd'
                      injection hnd' with hnd'
                      rw [← hnd']
                      exact hevX
                    have hpres := sample_given_preserves X v _ ms X
                      ndX.set_non_static.markov_blanket rng1 rngs (Except.ok value)
                      hyp1 hsg
                    rw [hf1] at hpres
                    rw [hpres] at hf2
                    injection hf2 with hf2
                    obtain ⟨he3, hc3, hs3⟩ := set_static_value_fields nd2 nd3 value hset
                    refine ⟨nd3, ?_, ?_, ?_, ?_⟩
                    · rw [← hm2]
                      exact findNode_updateNode_self ms X nd3 (by rw [hpres]; rfl)
                    · rw [he3, ← hf2]
                      exact hevX
                    · rw [hc3, ← hf2]
                      exact hcX
                    · rw [hs3]
                      rfl
                  · have hf1 : findNode (updateNode m
                        (uNames.getD (rr % uNames.length) "") nd.set_non_static) X =
                        findNode m X :=
                      findNode_updateNode_ne m _ X nd.set_non_static hwX
                    have hyp1 : ∀ nd', findNode (updateNode m
                        (uNames.getD (rr % uNames.length) "") nd.set_non_static) X =
                        some nd' → nd'.evidence = some v := by
                      rw [hf1]
                      exact hyp
                    have hpres := sample_given_preserves X v _ ms
                      (uNames.getD (rr % uNames.length) "")
                      nd.set_non_static.markov_blanket rng1 rngs (Except.ok value)
                      hyp1 hsg
                    refine ⟨ndX, ?_, hevX, hcX, hsX⟩
                    rw [← hm2, findNode_updateNode_ne ms _ X nd3 hwX, hpres, hf1]
                    exact hfX

theorem gibbs_loop_preserves_clamped (X v : String) (uNames : List String) :
    ∀ (k : Nat) (m m2 : NetMap) (rng rng2 : Rng),
      gibbs_loop uNames k m rng = (m2, rng2, Except.ok ()) →
      evidence_clamped m X v → evidence_clamped m2 X v := by
  intro k
  induction k with
  | zero =>
      intro m m2 rng rng2 h hQ
      unfold gibbs_loop at h
      rw [Prod.mk.injEq] at h
      rw [← h.1]
      exact hQ
  | succ kk ih =>
      intro m m2 rng rng2 h hQ
      unfold gibbs_loop at h
      rcases hstep : gibbs_step uNames m rng with ⟨m1, rng1, rs⟩
      cases rs with
      | error e => simp only [hstep] at h; simp at h
      | ok u =>
          cases u
          simp only [hstep] at h
          exact ih m1 m2 rng1 rng2 h
            (gibbs_step_preserves_clamped X v uNames m m1 rng rng1 hstep hQ)

theorem seeding_preserves_clamped (X v : String) :
    ∀ (names : List String) (m m2 : NetMap) (rng rng2 : Rng)
      (r : Except PyError Unit),
      set_random_initial_values m names rng = (m2, rng2, r) →
      evidence_clamped m X v → evidence_clamped m2 X v := by
  intro names
  induction names with
  | nil =>
      intro m m2 rng rng2 r h hQ
      unfold set_random_initial_values at h
      rw [Prod.mk.injEq] at h
      rw [← h.1]
      exact hQ
  | cons name rest ih =>
      intro m m2 rng rng2 r h hQ
      obtain ⟨ndX, hfX, hevX, hcX, hsX⟩ := hQ
      unfold set_random_initial_values at h
      cases hf : findNode m name with
      | none =>
          simp only [hf] at h
          rw [Prod.mk.injEq] at h
          rw [← h.1]
          exact ⟨ndX, hfX, hevX, hcX, hsX⟩
      | some nd =>
          simp only [hf] at h
          cases hsr : nd.set_random_initial_value rng with
          | error e =>
              simp only [hsr] at h
              rw [Prod.mk.injEq] at h
              rw [← h.1]
              exact ⟨ndX, hfX, hevX, hcX, hsX⟩
          | ok pr =>
              rcases pr with ⟨nd2, rng3⟩
              simp only [hsr] at h
              obtain ⟨hc2, he2, hs2⟩ := set_random_initial_value_fields nd nd2 rng rng3 hsr
              refine ih (updateNode m name nd2) m2 rng3 rng2 r h ?_
              by_cases hX : name = X
              · subst hX
                rw [hfX] at hf
                injection hf with hf
                subst hf
                refine ⟨nd2, findNode_updateNode_self m name nd2 (by rw [hfX]; rfl),
                  ?_, ?_, hs2⟩
                · rw [he2]; exact hevX
                · rw [hc2]; exact hcX
              · exact ⟨ndX, by rw [findNode_updateNode_ne m name X nd2 hX]; exact hfX,
                  hevX, hcX, hsX⟩

theorem seeding_establishes_clamped (X v : String) :
    ∀ (names : List String) (m m2 : NetMap) (rng rng2 : Rng),
      set_random_initial_values m names rng = (m2, rng2, Except.ok ()) →
      X ∈ names →
      (∀ nd, findNode m X = some nd → nd.evidence = some v ∧ nd.counter = []) →
      evidence_clamped m2 X v := by
  intro names
  induction names with
  | nil => intro m m2 rng rng2 h hmem hyp; cases hmem
  | cons name rest ih =>
      intro m m2 rng rng2 h hmem hyp
      unfold set_random_initial_values at h
      cases hf : findNode m name with
      | none => simp only [hf] at h; simp at h
      | some nd =>
          simp only [hf] at h
          cases hsr : nd.set_random_initial_value rng with
          | error e => simp only [hsr] at h; simp at h
          | ok pr =>
              rcases pr with ⟨nd2, rng3⟩
              simp only [hsr] at h
              obtain ⟨hc2, he2, hs2⟩ := set_random_initial_value_fields nd nd2 rng rng3 hsr
              by_cases hX : name = X
              · subst hX
                have hQ : evidence_clamped (updateNode m name nd2) name v := by
                  refine ⟨nd2, findNode_updateNode_self m name nd2 (by rw [hf]; rfl),
                    ?_, ?_, hs2⟩
                  · rw [he2]; exact (hyp nd hf).1
                  · rw [hc2]; exact (hyp nd hf).2
                exact seeding_preserves_clamped name v rest (updateNode m name nd2)
                  m2 rng3 rng2 (Except.ok ()) h hQ
              · rcases List.mem_cons.1 hmem with heq | hmem2
                · exact absurd heq.symm hX
                · refine ih (updateNode m name nd2) m2 rng3 rng2 h hmem2 ?_
                  rw [findNode_updateNode_ne m name X nd2 hX]
                  exact hyp

theorem set_evidences_not_key (X : String) :
    ∀ (evidence : List (String × String)) (m m2 : NetMap) (r : Except PyError Unit),
      evidence.find? (fun q => q.1 = X) = none →
      set_evidences m evidence = (m2, r) →
      findNode m2 X = findNode m X := by
  intro evidence
  induction evidence with
  | nil =>
      intro m m2 r hnk h
      unfold set_evidences at h
      rw [Prod.mk.injEq] at h
      rw [h.1]
  | cons pr rest ih =>
      intro m m2 r hnk h
      rcases pr with ⟨name, state⟩
      by_cases hname : name = X
      · simp [List.find?, hname] at hnk
      · have hrest : rest.find? (fun q => q.1 = X) = none := by
          simpa [List.find?, hname] using hnk
        unfold set_evidences at h
        cases hf : findNode m name with
        | none =>
            simp only [hf] at h
            rw [Prod.mk.injEq] at h
            rw [← h.1]
        | some nd =>
            simp only [hf] at h
            cases hse : nd.set_evidence state with
            | error e =>
                simp only [hse] at h
                rw [Prod.mk.injEq] at h
                rw [← h.1]
            | ok nd2 =>
                simp only [hse] at h
                rw [ih (updateNode m name nd2) m2 r hrest h]
                exact findNode_updateNode_ne m name X nd2 hname

theorem mem_nodes_without_evidence (X : String) (evidence : List (String × String)) :
    ∀ m : NetMap, (findNode m X).isSome = true →
      evidence.find? (fun q => q.1 = X) = none →
      X ∈ nodes_without_evidence m evidence := by
  intro m
  induction m with
  | nil => intro h _; simp [findNode] at h
  | cons p rest ih =>
      intro hs hnk
      by_cases hk : p.1 = X
      · simp only [nodes_without_evidence, List.filter_cons, hk, hnk]
        simp only [Option.isNone_none, if_pos, List.map_cons, List.mem_cons]
        exact Or.inl hk.symm
      · rw [findNode, if_neg hk] at hs
        have hmem := ih hs hnk
        simp only [nodes_without_evidence] at hmem ⊢
        rw [List.filter_cons]
        by_cases hcond : (evidence.find? (fun q => q.1 = p.1)).isNone = true
        · simp only [hcond, if_pos, List.map_cons]
          exact List.mem_cons_of_mem _ hmem
        · simp only [hcond, if_neg, Bool.false_eq_true, not_false_iff]
          exact hmem

/-! ### Claim C5 — gibbs never clears evidence -/

/-- C5: a node `X` whose evidence was clamped earlier and whose name is absent
from the current call's evidence mapping keeps that stale clamp through a
successful `gibbs` run: it is counted among the nodes without evidence, yet at
the end its evidence is unchanged, its occurrence counter is empty (the reset
value — `sample()` kept returning the clamp without counting), and it carries
a working (static) value from seeding/resampling. -/
theorem C5_stale_evidence_frame (net net2 : NetMap) (evidence : List (String × String))
    (query : List String) (n : Nat) (rng : Rng)
    (res : List (String × Option (List (String × ℚ)))) (X v : String) (ndX : Node)
    (hfind : findNode net X = some ndX) (hev : ndX.evidence = some v)
    (hkey : evidence.find? (fun q => q.1 = X) = none)
    (h : gibbs net evidence query n rng = (net2, Except.ok res)) :
    X ∈ nodes_without_evidence net evidence ∧
    ∃ nd2, findNode net2 X = some nd2 ∧ nd2.evidence = some v ∧
      nd2.counter = [] ∧ nd2.static_value.isSome = true := by
  refine ⟨mem_nodes_without_evidence X evidence net (by rw [hfind]; rfl) hkey, ?_⟩
  unfold gibbs at h
  by_cases hemp : net.isEmpty = true
  · rw [if_pos hemp] at h; simp at h
  · rw [if_neg hemp] at h
    by_cases hov :
        query.any (fun qn => (evidence.find? (fun p => p.1 = qn)).isSome) = true
    · rw [if_pos hov] at h; simp at h
    · rw [if_neg hov] at h
      by_cases hunk : query.any (fun qn => (findNode net qn).isNone) = true
      · rw [if_pos hunk] at h; simp at h
      · rw [if_neg hunk] at h
        rcases hse : set_evidences net evidence with ⟨net1, rse⟩
        cases rse with
        | error e => simp only [hse] at h; simp at h
        | ok u =>
            cases u
            simp only [hse] at h
            have hf1 : findNode net1 X = some ndX := by
              rw [set_evidences_not_key X evidence net net1 (Except.ok ()) hkey hse]
              exact hfind
            by_cases hu :
                (nodes_without_evidence (reset_all_counters net1) evidence).isEmpty
                  = true
            · rw [if_pos hu] at h; simp at h
            · rw [if_neg hu] at h
              rcases hseed : set_random_initial_values (reset_all_counters net1)
                  (nodes_without_evidence (reset_all_counters net1) evidence) rng
                with ⟨net3, rng1, rs⟩
              cases rs with
              | error e => simp only [hseed] at h; simp at h
              | ok u2 =>
                  cases u2
                  simp only [hseed] at h
                  rcases hloop : gibbs_loop
                      (nodes_without_evidence (reset_all_counters net1) evidence)
                      n net3 rng1
                    with ⟨net4, rng4, rl⟩
                  cases rl with
                  | error e => simp only [hloop] at h; simp at h
                  | ok u3 =>
                      cases u3
                      simp only [hloop] at h
                      rw [Prod.mk.injEq] at h
                      obtain ⟨hnet2, -⟩ := h
                      have hfr : findNode (reset_all_counters net1) X =
                          some ndX.reset_counters := by
                        rw [findNode_reset_all, hf1]
                        rfl
                      have hyp0 : ∀ nd, findNode (reset_all_counters net1) X = some nd →
                          nd.evidence = some v ∧ nd.counter = [] := by
                        intro nd hnd
                        rw [hfr] at hnd
                        injection hnd with hnd
                        rw [← hnd]
                        exact ⟨hev, rfl⟩
                      have hmem : X ∈ nodes_without_evidence (reset_all_counters net1)
                          evidence :=
                        mem_nodes_without_evidence X evidence (reset_all_counters net1)
                          (by rw [hfr]; rfl) hkey
                      have hQ3 : evidence_clamped net3 X v :=
                        seeding_establishes_clamped X v _ (reset_all_counters net1)
                          net3 rng rng1 hseed hmem hyp0
                      have hQ4 : evidence_clamped net4 X v :=
                        gibbs_loop_preserves_clamped X v _ n net3 net4 rng1 rng4
                          hloop hQ3
                      rw [← hnet2]
                      exact hQ4

/-- Witness for C5: on the two-node network with a stale clamp `a` on `A` and
call evidence only for `B`, a 2-iteration run keeps the clamp on `A`. -/
theorem C5_stale_evidence_frame_witness :
    "A" ∈ nodes_without_evidence net1e [("B", "b")] ∧
    ((findNode (gibbs net1e [("B", "b")] ["A"] 2 [0, 0, 0, 0, 0]).1 "A").getD
        nodeA).evidence = some "a" := by
  have h := C5_stale_evidence_frame net1e
    (gibbs net1e [("B", "b")] ["A"] 2 [0, 0, 0, 0, 0]).1 [("B", "b")] ["A"] 2
    [0, 0, 0, 0, 0] [("A", none)] "A" "a" ((findNode net1e "A").getD nodeA)
    rfl rfl rfl rfl
  refine ⟨h.1, ?_⟩
  obtain ⟨nd2, hf, hevv, -, -⟩ := h.2
  simp only [hf, Option.getD_some]
  exact hevv
